import Mathlib

/-!
Shallow embedding of the gateway runtime of `grpc-graphql-gateway`
(package `runtime`, type `ServeMux`, file `graphql.go`).

Modelling conventions:
* A gRPC connection is abstracted to the fact that it is non-nil: the
  field-listing capabilities `GetQueries`/`GetMutations` receive a `Bool`
  (`false` stands for the `nil` connection passed at validation time,
  `true` for a real per-request connection).
* A Go `map[string]*graphql.Field` is modelled as an association list with
  insert-overwrite semantics (`mapInsert`); the field value itself is
  abstracted to a `Nat` identifier, since the runtime never inspects it.
* `context.Context` is abstracted to a `Nat`; middlewares may replace it.
* The external `graphql-go` engine (`graphql.NewSchema`, `graphql.Do`) is a
  parameter of the model (`Engine`), since it is an external collaborator.
* The observable actions of one `ServeHTTP` call (connection acquisition,
  deferred `closer()` release, schema construction, directive-middleware
  invocations, `graphql.Do` execution, middleware invocations) are recorded
  in an event trace, in the order the Go code performs them; Go `defer`
  runs the accumulated closers in LIFO order when the function returns,
  which the model reproduces by appending the reversed release list at the
  end of the trace of every exit path that runs after the connection loop.
* `parseRequest` lives in a repository file that only declares decoding of
  the body into {query, variables}; its outcome is passed to the model as
  an `Except String Request` input, since only its success or failure (and
  the decoded request) is observable to `ServeHTTP`.
-/

/-- Field payload, abstracted: the runtime treats `*graphql.Field` opaquely.
(The source name `Field` is taken by Mathlib, hence `GqlField`.) -/
abbrev GqlField := Nat

/-- Go `map[string]*graphql.Field`, as an association list whose key order is
the insertion order (one admissible iteration order of a Go map). -/
abbrev Fields := List (String × GqlField)

/-- Go map assignment `m[k] = v`: overwrite the entry if the key is present,
otherwise append it. -/
def mapInsert (m : Fields) (k : String) (v : GqlField) : Fields :=
  if m.any (fun p => p.1 = k) then
    m.map (fun p => if p.1 = k then (k, v) else p)
  else
    m ++ [(k, v)]

/-- Go map lookup `m[k]`. -/
def mapGet (m : Fields) (k : String) : Option GqlField :=
  (m.find? (fun p => p.1 = k)).map (fun p => p.2)

/-- The key set of a map, in iteration order. -/
def mapKeys (m : Fields) : List String :=
  m.map (fun p => p.1)

/-- Go loop `for k, v := range fs { m[k] = v }`. -/
def insertAll (m : Fields) (fs : Fields) : Fields :=
  fs.foldl (fun acc p => mapInsert acc p.1 p.2) m

/-- A Go error value, distinguishing the typed `*MiddlewareError` shape
(fields `Code` and `Message`, used verbatim by the runtime) from any other
`error` (only its `Error()` text is observable). -/
inductive GoError where
  | middlewareError (code : String) (message : String)
  | plain (text : String)
deriving DecidableEq

/-- Error envelope entry: `GraphqlError` with `Message` and the single
`"code"` key the runtime ever writes into `Extensions`. -/
structure GraphqlError where
  message : String
  code : String
deriving DecidableEq

/-- Lines 112-124 and 217-229 of `graphql.go`: build the envelope from a
failed middleware error, passing a typed `*MiddlewareError` through verbatim
and wrapping any other error with the generic fallback code. -/
def mwErrorEnvelope (fallbackCode : String) : GoError → GraphqlError
  | GoError.middlewareError c m => { message := m, code := c }
  | GoError.plain t => { message := t, code := fallbackCode }

/-- The `graphql.Result` payload: optional data plus business errors. -/
structure GraphqlResult where
  data : Option String := none
  errors : List GraphqlError := []
deriving DecidableEq

/-- The written HTTP response: status code plus the marshalled result. -/
structure Response where
  status : Nat
  result : GraphqlResult
deriving DecidableEq

/-- The function `respondResult`: marshal the result and always write
`http.StatusOK` (200). -/
def respondResult (result : GraphqlResult) : Response :=
  { status := 200, result := result }

/-- Decoded request body `{query, variables}` (`parseRequest` output). -/
structure Request where
  query : String
  vars : List (String × String) := []
deriving DecidableEq

/-- Go `MiddlewareFunc`: receives the current context (the HTTP writer and
request are opaque to the model) and returns an updated context or an error. -/
abbrev MiddlewareFunc := Nat → Except GoError Nat

/-- Go `GraphQLMiddlewareFunc`: receives the context and the method name and
may fail. -/
abbrev GraphQLMiddlewareFunc := Nat → String → Option GoError

/-- The `GraphqlHandler` interface. `createConnection` returns `some msg`
when it fails with an error whose text is `msg`, `none` on success (the
connection itself and the closer are abstracted; releases are traced by
handler index). The field listers take whether the connection is non-nil. -/
structure GraphqlHandler where
  createConnection : Nat → Option String
  getQueries : Bool → Fields
  getMutations : Bool → Fields

/-- The `ServeMux` registry: global middlewares in registration order, the
directive map keyed by method name then directive name, and the handlers in
registration order. -/
structure ServeMux where
  middlewares : List MiddlewareFunc := []
  graphQLMiddlewares : List (String × List (String × GraphQLMiddlewareFunc)) := []
  handlers : List GraphqlHandler := []

/-- `graphql.SchemaConfig`: the Query and Mutation roots, each present only
when its field map is non-empty. -/
structure SchemaConfig where
  query : Option Fields := none
  mutation : Option Fields := none
deriving DecidableEq

/-- The external `graphql-go` engine: schema construction (`NewSchema`) and
query execution (`Do`), as opaque capabilities the runtime calls. -/
structure Engine where
  newSchema : SchemaConfig → Except String Nat
  exec : Nat → String → GraphqlResult

/-- Lines 67-79 and 159-171 of `graphql.go`: the Query root is set iff the
query map is non-empty, likewise for Mutation. -/
def buildSchemaConfig (queries mutations : Fields) : SchemaConfig :=
  { query := if queries.length > 0 then some queries else none,
    mutation := if mutations.length > 0 then some mutations else none }

/-- `ServeMux.validateHandler`: list the fields with a nil connection; skip
validation when both lists are empty, otherwise dry-build a schema and wrap
any construction error. -/
def validateHandler (eng : Engine) (h : GraphqlHandler) : Option String :=
  let queries := h.getQueries false
  let mutations := h.getMutations false
  if queries.length = 0 ∧ mutations.length = 0 then
    none
  else
    match eng.newSchema (buildSchemaConfig queries mutations) with
    | Except.ok _ => none
    | Except.error e => some ("Schema validation error: " ++ e)

/-- `ServeMux.AddHandler`: validate, and append the handler to the registry
only on success; the returned option is the Go error. -/
def addHandler (eng : Engine) (s : ServeMux) (h : GraphqlHandler) :
    ServeMux × Option String :=
  match validateHandler eng h with
  | some e => (s, some e)
  | none => ({ s with handlers := s.handlers ++ [h] }, none)

/-- Observable events of one `ServeHTTP` call, in order of occurrence. -/
inductive Ev where
  | mw (i : Nat) (c : Nat)
  | acquire (i : Nat) (ok : Bool)
  | release (i : Nat)
  | buildSchema
  | directive (method : String) (dname : String)
  | execute
deriving DecidableEq

/-- Occurrence count of an element in a list. -/
def countL {α : Type} [DecidableEq α] (a : α) : List α → Nat
  | [] => 0
  | x :: xs => (if x = a then 1 else 0) + countL a xs

/-- The list `[s, s+1, ..., s+k-1]`. -/
def idxFrom : Nat → Nat → List Nat
  | _, 0 => []
  | s, k + 1 => s :: idxFrom (s + 1) k

/-- Is `needle` an initial segment of `hay`? -/
def leadsWith : List Char → List Char → Bool
  | [], _ => true
  | _ :: _, [] => false
  | a :: as, b :: bs => a == b && leadsWith as bs

/-- Does `needle` occur contiguously inside `hay`? -/
def hasSub (needle : List Char) : List Char → Bool
  | [] => needle.isEmpty
  | c :: t => leadsWith needle (c :: t) || hasSub needle t

/-- Go `strings.Contains(hay, needle)`. -/
def strContains (hay needle : String) : Bool :=
  hasSub needle.toList hay.toList

/-- The middleware loop of lines 109-130 without tracing: thread the context
through the middlewares, stopping at the first error. -/
def runMiddlewares : List MiddlewareFunc → Nat → Except GoError Nat
  | [], c => Except.ok c
  | m :: ms, c =>
    match m c with
    | Except.error e => Except.error e
    | Except.ok c2 => runMiddlewares ms c2

/-- The middleware loop with an invocation trace: event `mw i c` records
that the middleware of index `i` was invoked with context `c`. -/
def runMiddlewaresTraced : List MiddlewareFunc → Nat → Nat →
    List Ev × Except GoError Nat
  | [], _, c => ([], Except.ok c)
  | m :: ms, i, c =>
    match m c with
    | Except.error e => ([Ev.mw i c], Except.error e)
    | Except.ok c2 =>
      match runMiddlewaresTraced ms (i + 1) c2 with
      | (evs, r) => (Ev.mw i c :: evs, r)

/-- The handler loop of lines 134-157: acquire a connection per handler in
registration order, abort at the first acquisition failure, merge the field
maps with overwrite semantics otherwise. Returns the acquisition events, the
indices whose `closer` was deferred (in acquisition order) and either the
error text of the failed acquisition or the merged query/mutation maps. -/
def handlerLoop (ctx : Nat) : List GraphqlHandler → Nat → Fields → Fields →
    List Ev × List Nat × Except String (Fields × Fields)
  | [], _, qs, ms => ([], [], Except.ok (qs, ms))
  | h :: hs, i, qs, ms =>
    match h.createConnection ctx with
    | some e => ([Ev.acquire i false], [], Except.error e)
    | none =>
      match handlerLoop ctx hs (i + 1) (insertAll qs (h.getQueries true))
          (insertAll ms (h.getMutations true)) with
      | (evs, cls, res) => (Ev.acquire i true :: evs, i :: cls, res)

/-- Lookup in the directive registry `map[method]map[directive]fn`. -/
def lookupMW (gmw : List (String × List (String × GraphQLMiddlewareFunc)))
    (method : String) : Option (List (String × GraphQLMiddlewareFunc)) :=
  (gmw.find? (fun p => p.1 = method)).map (fun p => p.2)

/-- Lines 216-235: run every directive middleware registered for one method,
stopping at the first failure. -/
def runDirList (ctx : Nat) (method : String) :
    List (String × GraphQLMiddlewareFunc) → List Ev × Option GoError
  | [] => ([], none)
  | d :: rest =>
    match d.2 ctx method with
    | some e => ([Ev.directive method d.1], some e)
    | none =>
      match runDirList ctx method rest with
      | (evs, r) => (Ev.directive method d.1 :: evs, r)

/-- Lines 211-237: for each collected method name, when the name occurs
literally in the query text, run its registered directive middlewares. -/
def runDirectives (ctx : Nat)
    (gmw : List (String × List (String × GraphQLMiddlewareFunc)))
    (q : String) : List String → List Ev × Option GoError
  | [] => ([], none)
  | method :: rest =>
    if strContains q method then
      match lookupMW gmw method with
      | some dirs =>
        match runDirList ctx method dirs with
        | (evs, some e) => (evs, some e)
        | (evs, none) =>
          match runDirectives ctx gmw q rest with
          | (evs2, r) => (evs ++ evs2, r)
      | none => runDirectives ctx gmw q rest
    else
      runDirectives ctx gmw q rest

/-- The directive events produced when no directive middleware fails. -/
def dispatchEvs (gmw : List (String × List (String × GraphQLMiddlewareFunc)))
    (q : String) : List String → List Ev
  | [] => []
  | method :: rest =>
    (if strContains q method then
      match lookupMW gmw method with
      | some dirs => dirs.map (fun d => Ev.directive method d.1)
      | none => []
    else []) ++ dispatchEvs gmw q rest

/-- Lines 159-253, after the connection loop succeeded: build the schema,
parse the request, dispatch directives, execute. Returns the events between
the acquisition events and the deferred releases, plus the result that is
handed to `respondResult`. -/
def afterConn (eng : Engine)
    (gmw : List (String × List (String × GraphQLMiddlewareFunc)))
    (ctx : Nat) (parsed : Except String Request) (qs ms : Fields) :
    List Ev × GraphqlResult :=
  match eng.newSchema (buildSchemaConfig qs ms) with
  | Except.error e =>
    ([Ev.buildSchema],
     { errors := [{ message := "Failed to build schema: " ++ e,
                    code := "SCHEMA_GENERATION_ERROR" }] })
  | Except.ok sch =>
    match parsed with
    | Except.error e =>
      ([Ev.buildSchema],
       { errors := [{ message := "Failed to parse request: " ++ e,
                      code := "REQUEST_PARSE_ERROR" }] })
    | Except.ok req =>
      match runDirectives ctx gmw req.query (mapKeys qs ++ mapKeys ms) with
      | (dEvs, some e) =>
        (Ev.buildSchema :: dEvs,
         { errors := [mwErrorEnvelope "DIRECTIVE_MIDDLEWARE_ERROR" e] })
      | (dEvs, none) =>
        (Ev.buildSchema :: dEvs ++ [Ev.execute], eng.exec sch req.query)

/-- `ServeMux.ServeHTTP`: the whole request pipeline, returning the event
trace and the written response. The deferred closers run in LIFO order when
the Go function returns, hence the reversed release events at the end of
every path that passes the connection loop. -/
def serveHTTP (eng : Engine) (s : ServeMux) (parsed : Except String Request)
    (ctx0 : Nat) : List Ev × Response :=
  match runMiddlewaresTraced s.middlewares 0 ctx0 with
  | (mwEvs, Except.error e) =>
    (mwEvs, respondResult { errors := [mwErrorEnvelope "MIDDLEWARE_ERROR" e] })
  | (mwEvs, Except.ok ctx) =>
    match handlerLoop ctx s.handlers 0 [] [] with
    | (hEvs, cls, Except.error e) =>
      (mwEvs ++ hEvs ++ (cls.reverse.map Ev.release),
       respondResult
         { errors := [{ message := "Failed to create grpc connection: " ++ e,
                        code := "GRPC_CONNECT_ERROR" }] })
    | (hEvs, cls, Except.ok (qs, ms)) =>
      match afterConn eng s.graphQLMiddlewares ctx parsed qs ms with
      | (tailEvs, result) =>
        (mwEvs ++ hEvs ++ tailEvs ++ (cls.reverse.map Ev.release),
         respondResult result)

/-- The merged query map the request-time assembly builds when every
acquisition succeeds: handlers in registration order, overwrite on
duplicate names. -/
def requestQueries (hs : List GraphqlHandler) : Fields :=
  hs.foldl (fun acc h => insertAll acc (h.getQueries true)) []

/-- The merged mutation map of the request-time assembly. -/
def requestMutations (hs : List GraphqlHandler) : Fields :=
  hs.foldl (fun acc h => insertAll acc (h.getMutations true)) []

/-- How many directive events one occurrence of method `mth` in the collected
name list contributes for directive name `dn`, when no middleware fails. -/
def dirHitCount (gmw : List (String × List (String × GraphQLMiddlewareFunc)))
    (q : String) (mth dn : String) : Nat :=
  if strContains q mth then
    match lookupMW gmw mth with
    | some dirs => countL dn (dirs.map (fun d => d.1))
    | none => 0
  else 0

/-- Engine whose schema construction always succeeds. -/
def engOk : Engine :=
  { newSchema := fun _ => Except.ok 0,
    exec := fun _ q => { data := some q } }

/-- Engine whose schema construction always fails. -/
def engBad : Engine :=
  { newSchema := fun _ => Except.error "bad type graph",
    exec := fun _ _ => {} }

/-- A middleware that replaces the context with its successor. -/
def mwBump : MiddlewareFunc := fun c => Except.ok (c + 1)

/-- A middleware failing with the typed error shape. -/
def mwReject : MiddlewareFunc :=
  fun _ => Except.error (GoError.middlewareError "UNAUTHORIZED" "no token")

/-- A middleware registered after the failing one; it must never run. -/
def mwLate : MiddlewareFunc := fun c => Except.ok c

/-- Handler exposing one query field `hello`; acquisition succeeds. -/
def hHello : GraphqlHandler :=
  { createConnection := fun _ => none,
    getQueries := fun _ => [("hello", 1)],
    getMutations := fun _ => [] }

/-- Handler whose connection acquisition fails with `dial refused`. -/
def hDial : GraphqlHandler :=
  { createConnection := fun _ => some "dial refused",
    getQueries := fun _ => [],
    getMutations := fun _ => [] }

/-- First handler exposing mutation field `create` (payload 10). -/
def hCreateA : GraphqlHandler :=
  { createConnection := fun _ => none,
    getQueries := fun _ => [],
    getMutations := fun _ => [("create", 10)] }

/-- Second handler exposing mutation field `create` (payload 20). -/
def hCreateB : GraphqlHandler :=
  { createConnection := fun _ => none,
    getQueries := fun _ => [],
    getMutations := fun _ => [("create", 20)] }

/-- Handler exposing the same name as a query and as a mutation field. -/
def hThing : GraphqlHandler :=
  { createConnection := fun _ => none,
    getQueries := fun _ => [("thing", 1)],
    getMutations := fun _ => [("thing", 2)] }

/-- Handler with no field definitions at all. -/
def hEmpty : GraphqlHandler :=
  { createConnection := fun _ => none,
    getQueries := fun _ => [],
    getMutations := fun _ => [] }

/-- A directive middleware that always succeeds. -/
def dirPass : GraphQLMiddlewareFunc := fun _ _ => none

/-- A directive middleware failing with an untyped error. -/
def dirBoom : GraphQLMiddlewareFunc := fun _ _ => some (GoError.plain "dboom")

/-- Mux with a single healthy handler. -/
def muxHello : ServeMux := { handlers := [hHello] }

/-- Mux with a bump middleware, then a rejecting one, then a late one. -/
def muxMw : ServeMux :=
  { middlewares := [mwBump, mwReject, mwLate]
    handlers := [hHello] }

/-- Mux whose second of three handlers fails to acquire a connection. -/
def muxRel : ServeMux := { handlers := [hHello, hDial, hHello] }

/-- Mux whose second handler fails to acquire a connection. -/
def muxConn : ServeMux := { handlers := [hHello, hDial] }

/-- Mux with two handlers exposing the same mutation field name. -/
def muxMerge : ServeMux := { handlers := [hCreateA, hCreateB] }

/-- Mux with a directive middleware registered for `hello`. -/
def muxDir : ServeMux :=
  { handlers := [hHello]
    graphQLMiddlewares := [("hello", [("auth", dirPass)])] }

/-- Mux whose `hello` directive middleware fails. -/
def muxDirFail : ServeMux :=
  { handlers := [hHello]
    graphQLMiddlewares := [("hello", [("auth", dirBoom)])] }

/-- Mux where `thing` is both a query and a mutation field, with one
registered directive middleware. -/
def muxThing : ServeMux :=
  { handlers := [hThing]
    graphQLMiddlewares := [("thing", [("auth", dirPass)])] }

theorem gw_countL_append {α : Type} [DecidableEq α] (a : α) (l1 l2 : List α) :
    countL a (l1 ++ l2) = countL a l1 + countL a l2 := by
  induction l1 with
  | nil => simp [countL]
  | cons x xs ih => simp [countL, ih]; omega

theorem gw_countL_eq_zero {α : Type} [DecidableEq α] (a : α) (l : List α)
    (h : ∀ x ∈ l, x ≠ a) : countL a l = 0 := by
  induction l with
  | nil => rfl
  | cons x xs ih =>
    have hx : x ≠ a := h x (by simp)
    simp [countL, hx]
    exact ih (fun y hy => h y (by simp [hy]))

theorem gw_countL_reverse {α : Type} [DecidableEq α] (a : α) (l : List α) :
    countL a l.reverse = countL a l := by
  induction l with
  | nil => rfl
  | cons x xs ih =>
    rw [List.reverse_cons, gw_countL_append a xs.reverse [x], ih]
    simp only [countL]
    omega


theorem gw_countL_map {α β : Type} [DecidableEq α] [DecidableEq β]
    (f : α → β) (hf : ∀ x y, f x = f y → x = y) (a : α) (l : List α) :
    countL (f a) (l.map f) = countL a l := by
  induction l with
  | nil => rfl
  | cons x xs ih =>
    by_cases hx : x = a
    · subst hx; simp [countL, ih]
    · have : f x ≠ f a := fun hc => hx (hf x a hc)
      simp [countL, hx, this, ih]

theorem gw_countL_zero_of_not_mem {α : Type} [DecidableEq α] (a : α)
    (l : List α) (h : a ∉ l) : countL a l = 0 :=
  gw_countL_eq_zero a l (fun x hx hxa => h (hxa ▸ hx))

theorem gw_countL_one_of_nodup_mem {α : Type} [DecidableEq α] (a : α)
    (l : List α) (hn : l.Nodup) (hm : a ∈ l) : countL a l = 1 := by
  induction l with
  | nil => cases hm
  | cons x xs ih =>
    rcases List.mem_cons.mp hm with h | h
    · subst h
      have hx : a ∈ xs → False := fun hc => (List.nodup_cons.mp hn).1 hc
      simp [countL, gw_countL_zero_of_not_mem a xs hx]
    · have hxa : x ≠ a := by
        intro hh; subst hh; exact (List.nodup_cons.mp hn).1 h
      simp [countL, hxa, ih (List.nodup_cons.mp hn).2 h]

theorem gw_mem_idxFrom (n s k : Nat) : n ∈ idxFrom s k ↔ s ≤ n ∧ n < s + k := by
  induction k generalizing s with
  | zero => simp [idxFrom]
  | succ k ih => simp [idxFrom, ih (s + 1)]; omega

theorem gw_countL_idxFrom (n s k : Nat) :
    countL n (idxFrom s k) = if s ≤ n ∧ n < s + k then 1 else 0 := by
  induction k generalizing s with
  | zero =>
    have h0 : ¬(s ≤ n ∧ n < s) := by omega
    simp [idxFrom, countL, h0]
  | succ k ih =>
    simp only [idxFrom, countL, ih (s + 1)]
    by_cases hn : s = n
    · subst hn
      have h1 : ¬(s + 1 ≤ s ∧ s < s + 1 + k) := by omega
      have h2 : s ≤ s ∧ s < s + (k + 1) := by omega
      simp [h1, h2]
    · simp only [if_neg hn]
      by_cases h3 : s + 1 ≤ n ∧ n < s + 1 + k
      · have h4 : s ≤ n ∧ n < s + (k + 1) := by omega
        simp [h3, h4]
      · have h4 : ¬(s ≤ n ∧ n < s + (k + 1)) := by omega
        simp [h3, h4]

theorem gw_idxFrom_length (s k : Nat) : (idxFrom s k).length = k := by
  induction k generalizing s with
  | zero => rfl
  | succ k ih => simp [idxFrom, ih (s + 1)]

theorem gw_runMWT_nil (i c : Nat) :
    runMiddlewaresTraced [] i c = ([], Except.ok c) := rfl

theorem gw_runMWT_cons_error (m : MiddlewareFunc) (ms : List MiddlewareFunc)
    (i c : Nat) (e : GoError) (hm : m c = Except.error e) :
    runMiddlewaresTraced (m :: ms) i c = ([Ev.mw i c], Except.error e) := by
  simp [runMiddlewaresTraced, hm]

theorem gw_runMWT_cons_ok (m : MiddlewareFunc) (ms : List MiddlewareFunc)
    (i c c2 : Nat) (hm : m c = Except.ok c2) :
    runMiddlewaresTraced (m :: ms) i c =
      (Ev.mw i c :: (runMiddlewaresTraced ms (i + 1) c2).1,
       (runMiddlewaresTraced ms (i + 1) c2).2) := by
  simp [runMiddlewaresTraced, hm]

theorem gw_runMW_cons_ok (m : MiddlewareFunc) (ms : List MiddlewareFunc)
    (c c2 : Nat) (hm : m c = Except.ok c2) :
    runMiddlewares (m :: ms) c = runMiddlewares ms c2 := by
  simp [runMiddlewares, hm]

theorem gw_runMWT_pure (ms : List MiddlewareFunc) (i c : Nat) :
    ∀ ev ∈ (runMiddlewaresTraced ms i c).1,
      ∃ j cj, ev = Ev.mw j cj ∧ i ≤ j ∧ j < i + ms.length := by
  induction ms generalizing i c with
  | nil => intro ev hev; rw [gw_runMWT_nil] at hev; cases hev
  | cons m ms ih =>
    intro ev hev
    cases hm : m c with
    | error e =>
      rw [gw_runMWT_cons_error m ms i c e hm] at hev
      simp at hev
      exact ⟨i, c, hev, Nat.le_refl i, by simp⟩
    | ok c2 =>
      rw [gw_runMWT_cons_ok m ms i c c2 hm] at hev
      simp at hev
      rcases hev with h | h
      · exact ⟨i, c, h, Nat.le_refl i, by simp⟩
      · rcases ih (i + 1) c2 ev h with ⟨j, cj, hj1, hj2, hj3⟩
        exact ⟨j, cj, hj1, by omega, by simp only [List.length_cons]; omega⟩

theorem gw_runMWT_snd (ms : List MiddlewareFunc) (i c : Nat) :
    (runMiddlewaresTraced ms i c).2 = runMiddlewares ms c := by
  induction ms generalizing i c with
  | nil => rfl
  | cons m ms ih =>
    cases hm : m c with
    | error e =>
      rw [gw_runMWT_cons_error m ms i c e hm]
      simp [runMiddlewares, hm]
    | ok c2 =>
      rw [gw_runMWT_cons_ok m ms i c c2 hm, gw_runMW_cons_ok m ms c c2 hm]
      exact ih (i + 1) c2

theorem gw_runMWT_append_ok (pre rest : List MiddlewareFunc) (i c c2 : Nat)
    (h : runMiddlewares pre c = Except.ok c2) :
    runMiddlewaresTraced (pre ++ rest) i c =
      ((runMiddlewaresTraced pre i c).1 ++
         (runMiddlewaresTraced rest (i + pre.length) c2).1,
       (runMiddlewaresTraced rest (i + pre.length) c2).2) := by
  induction pre generalizing i c with
  | nil =>
    simp only [runMiddlewares] at h
    cases h
    simp [gw_runMWT_nil]
  | cons m pre ih =>
    cases hm : m c with
    | error e =>
      rw [show runMiddlewares (m :: pre) c = Except.error e by
        simp [runMiddlewares, hm]] at h
      cases h
    | ok c1 =>
      rw [gw_runMW_cons_ok m pre c c1 hm] at h
      have hcons : (m :: pre) ++ rest = m :: (pre ++ rest) := rfl
      rw [hcons, gw_runMWT_cons_ok m (pre ++ rest) i c c1 hm,
        gw_runMWT_cons_ok m pre i c c1 hm, ih (i + 1) c1 h]
      have harith : i + 1 + pre.length = i + (m :: pre).length := by
        simp only [List.length_cons]; omega
      rw [harith]
      simp

theorem gw_runMWT_get (ms : List MiddlewareFunc) (i c : Nat) :
    ∀ k, k < (runMiddlewaresTraced ms i c).1.length →
      ∃ ck, runMiddlewares (ms.take k) c = Except.ok ck ∧
        (runMiddlewaresTraced ms i c).1.get? k = some (Ev.mw (i + k) ck) := by
  induction ms generalizing i c with
  | nil => intro k hk; rw [gw_runMWT_nil] at hk; simp at hk
  | cons m ms ih =>
    intro k hk
    cases hm : m c with
    | error e =>
      rw [gw_runMWT_cons_error m ms i c e hm] at hk ⊢
      simp at hk
      subst hk
      exact ⟨c, by simp [runMiddlewares], by simp⟩
    | ok c2 =>
      rw [gw_runMWT_cons_ok m ms i c c2 hm] at hk ⊢
      cases k with
      | zero => exact ⟨c, by simp [runMiddlewares], by simp⟩
      | succ k =>
        simp only [List.length_cons] at hk
        rcases ih (i + 1) c2 k (by omega) with ⟨ck, hck1, hck2⟩
        refine ⟨ck, ?_, ?_⟩
        · rw [List.take_succ_cons, gw_runMW_cons_ok m (ms.take k) c c2 hm]
          exact hck1
        · simp only [List.get?_cons_succ]
          rw [hck2]
          have harith : i + 1 + k = i + (k + 1) := by omega
          rw [harith]

theorem gw_runMWT_length_ok (ms : List MiddlewareFunc) (i c c2 : Nat)
    (h : runMiddlewares ms c = Except.ok c2) :
    (runMiddlewaresTraced ms i c).1.length = ms.length := by
  induction ms generalizing i c with
  | nil => rfl
  | cons m ms ih =>
    cases hm : m c with
    | error e =>
      rw [show runMiddlewares (m :: ms) c = Except.error e by
        simp [runMiddlewares, hm]] at h
      cases h
    | ok c1 =>
      rw [gw_runMW_cons_ok m ms c c1 hm] at h
      rw [gw_runMWT_cons_ok m ms i c c1 hm]
      simp [ih (i + 1) c1 h]

theorem gw_handlerLoop_nil (ctx i : Nat) (qs ms : Fields) :
    handlerLoop ctx [] i qs ms = ([], [], Except.ok (qs, ms)) := rfl

theorem gw_handlerLoop_cons_fail (ctx : Nat) (h : GraphqlHandler)
    (hs : List GraphqlHandler) (i : Nat) (qs ms : Fields) (e : String)
    (hc : h.createConnection ctx = some e) :
    handlerLoop ctx (h :: hs) i qs ms =
      ([Ev.acquire i false], [], Except.error e) := by
  simp [handlerLoop, hc]

theorem gw_handlerLoop_cons_ok (ctx : Nat) (h : GraphqlHandler)
    (hs : List GraphqlHandler) (i : Nat) (qs ms : Fields)
    (hc : h.createConnection ctx = none) :
    handlerLoop ctx (h :: hs) i qs ms =
      (Ev.acquire i true ::
         (handlerLoop ctx hs (i + 1) (insertAll qs (h.getQueries true))
           (insertAll ms (h.getMutations true))).1,
       i :: (handlerLoop ctx hs (i + 1) (insertAll qs (h.getQueries true))
           (insertAll ms (h.getMutations true))).2.1,
       (handlerLoop ctx hs (i + 1) (insertAll qs (h.getQueries true))
           (insertAll ms (h.getMutations true))).2.2) := by
  simp [handlerLoop, hc]

theorem gw_handlerLoop_pure (ctx : Nat) (hs : List GraphqlHandler) (i : Nat)
    (qs ms : Fields) :
    ∀ ev ∈ (handlerLoop ctx hs i qs ms).1, ∃ j b, ev = Ev.acquire j b := by
  induction hs generalizing i qs ms with
  | nil => intro ev hev; rw [gw_handlerLoop_nil] at hev; cases hev
  | cons h hs ih =>
    intro ev hev
    cases hc : h.createConnection ctx with
    | some e =>
      rw [gw_handlerLoop_cons_fail ctx h hs i qs ms e hc] at hev
      simp at hev
      exact ⟨i, false, hev⟩
    | none =>
      rw [gw_handlerLoop_cons_ok ctx h hs i qs ms hc] at hev
      simp at hev
      rcases hev with hl | hl
      · exact ⟨i, true, hl⟩
      · exact ih (i + 1) _ _ ev hl

theorem gw_handlerLoop_ok (ctx : Nat) (hs : List GraphqlHandler) :
    ∀ (i : Nat) (qs ms : Fields), (∀ h ∈ hs, h.createConnection ctx = none) →
    handlerLoop ctx hs i qs ms =
      ((idxFrom i hs.length).map (fun j => Ev.acquire j true),
       idxFrom i hs.length,
       Except.ok (hs.foldl (fun a h => insertAll a (h.getQueries true)) qs,
         hs.foldl (fun a h => insertAll a (h.getMutations true)) ms)) := by
  induction hs with
  | nil => intro i qs ms _; simp [gw_handlerLoop_nil, idxFrom]
  | cons h hs ih =>
    intro i qs ms hall
    have hc : h.createConnection ctx = none := hall h (by simp)
    rw [gw_handlerLoop_cons_ok ctx h hs i qs ms hc,
      ih (i + 1) (insertAll qs (h.getQueries true))
        (insertAll ms (h.getMutations true)) (fun g hg => hall g (by simp [hg]))]
    simp [idxFrom]

theorem gw_handlerLoop_fail (ctx : Nat) (pre : List GraphqlHandler)
    (hf : GraphqlHandler) (post : List GraphqlHandler) :
    ∀ (i : Nat) (qs ms : Fields), (∀ h ∈ pre, h.createConnection ctx = none) →
    ∀ (e : String), hf.createConnection ctx = some e →
    handlerLoop ctx (pre ++ hf :: post) i qs ms =
      ((idxFrom i pre.length).map (fun j => Ev.acquire j true) ++
         [Ev.acquire (i + pre.length) false],
       idxFrom i pre.length,
       Except.error e) := by
  induction pre with
  | nil =>
    intro i qs ms _ e he
    simp only [List.nil_append, List.length_nil, idxFrom]
    rw [gw_handlerLoop_cons_fail ctx hf post i qs ms e he]
    simp
  | cons h pre ih =>
    intro i qs ms hall e he
    have hc : h.createConnection ctx = none := hall h (by simp)
    have hcons : (h :: pre) ++ hf :: post = h :: (pre ++ hf :: post) := rfl
    rw [hcons, gw_handlerLoop_cons_ok ctx h (pre ++ hf :: post) i qs ms hc,
      ih (i + 1) (insertAll qs (h.getQueries true))
        (insertAll ms (h.getMutations true))
        (fun g hg => hall g (by simp [hg])) e he]
    simp only [List.length_cons, idxFrom]
    have harith : i + 1 + pre.length = i + (pre.length + 1) := by omega
    simp [harith]

theorem gw_handlerLoop_shape (ctx : Nat) (hs : List GraphqlHandler) :
    ∀ (i : Nat) (qs ms : Fields),
    (∃ pr, handlerLoop ctx hs i qs ms =
        ((idxFrom i hs.length).map (fun j => Ev.acquire j true),
         idxFrom i hs.length, Except.ok pr)) ∨
    (∃ k e, k < hs.length ∧ handlerLoop ctx hs i qs ms =
        ((idxFrom i k).map (fun j => Ev.acquire j true) ++
           [Ev.acquire (i + k) false],
         idxFrom i k, Except.error e)) := by
  induction hs with
  | nil =>
    intro i qs ms
    exact Or.inl ⟨(qs, ms), by simp [gw_handlerLoop_nil, idxFrom]⟩
  | cons h hs ih =>
    intro i qs ms
    cases hc : h.createConnection ctx with
    | some e =>
      refine Or.inr ⟨0, e, by simp, ?_⟩
      rw [gw_handlerLoop_cons_fail ctx h hs i qs ms e hc]
      simp [idxFrom]
    | none =>
      rcases ih (i + 1) (insertAll qs (h.getQueries true))
          (insertAll ms (h.getMutations true)) with ⟨pr, hpr⟩ | ⟨k, e, hk, hke⟩
      · refine Or.inl ⟨pr, ?_⟩
        rw [gw_handlerLoop_cons_ok ctx h hs i qs ms hc, hpr]
        simp [idxFrom]
      · refine Or.inr ⟨k + 1, e, by simp; omega, ?_⟩
        rw [gw_handlerLoop_cons_ok ctx h hs i qs ms hc, hke]
        have harith : i + 1 + k = i + (k + 1) := by omega
        simp [idxFrom, harith]

theorem gw_runDirList_nil (ctx : Nat) (method : String) :
    runDirList ctx method [] = ([], none) := rfl

theorem gw_runDirList_cons_fail (ctx : Nat) (method : String)
    (d : String × GraphQLMiddlewareFunc) (rest : List (String × GraphQLMiddlewareFunc))
    (e : GoError) (hd : d.2 ctx method = some e) :
    runDirList ctx method (d :: rest) = ([Ev.directive method d.1], some e) := by
  simp [runDirList, hd]

theorem gw_runDirList_cons_ok (ctx : Nat) (method : String)
    (d : String × GraphQLMiddlewareFunc) (rest : List (String × GraphQLMiddlewareFunc))
    (hd : d.2 ctx method = none) :
    runDirList ctx method (d :: rest) =
      (Ev.directive method d.1 :: (runDirList ctx method rest).1,
       (runDirList ctx method rest).2) := by
  simp [runDirList, hd]

theorem gw_runDirList_ok (ctx : Nat) (method : String)
    (dirs : List (String × GraphQLMiddlewareFunc))
    (hall : ∀ d ∈ dirs, d.2 ctx method = none) :
    runDirList ctx method dirs =
      (dirs.map (fun d => Ev.directive method d.1), none) := by
  induction dirs with
  | nil => rfl
  | cons d rest ih =>
    rw [gw_runDirList_cons_ok ctx method d rest (hall d (by simp)),
      ih (fun g hg => hall g (by simp [hg]))]
    simp

theorem gw_runDirList_pure (ctx : Nat) (method : String)
    (dirs : List (String × GraphQLMiddlewareFunc)) :
    ∀ ev ∈ (runDirList ctx method dirs).1, ∃ dn, ev = Ev.directive method dn := by
  induction dirs with
  | nil => intro ev hev; cases hev
  | cons d rest ih =>
    intro ev hev
    cases hd : d.2 ctx method with
    | some e =>
      rw [gw_runDirList_cons_fail ctx method d rest e hd] at hev
      simp at hev
      exact ⟨d.1, hev⟩
    | none =>
      rw [gw_runDirList_cons_ok ctx method d rest hd] at hev
      simp at hev
      rcases hev with hl | hl
      · exact ⟨d.1, hl⟩
      · exact ih ev hl

theorem gw_runDirectives_nil (ctx : Nat)
    (gmw : List (String × List (String × GraphQLMiddlewareFunc))) (q : String) :
    runDirectives ctx gmw q [] = ([], none) := rfl

theorem gw_runDirectives_cons_skip (ctx : Nat)
    (gmw : List (String × List (String × GraphQLMiddlewareFunc))) (q : String)
    (method : String) (rest : List String)
    (hc : strContains q method = false) :
    runDirectives ctx gmw q (method :: rest) = runDirectives ctx gmw q rest := by
  simp [runDirectives, hc]

theorem gw_runDirectives_cons_nomw (ctx : Nat)
    (gmw : List (String × List (String × GraphQLMiddlewareFunc))) (q : String)
    (method : String) (rest : List String)
    (hc : strContains q method = true) (hl : lookupMW gmw method = none) :
    runDirectives ctx gmw q (method :: rest) = runDirectives ctx gmw q rest := by
  simp [runDirectives, hc, hl]

theorem gw_runDirectives_cons_fail (ctx : Nat)
    (gmw : List (String × List (String × GraphQLMiddlewareFunc))) (q : String)
    (method : String) (rest : List String)
    (dirs : List (String × GraphQLMiddlewareFunc)) (evs : List Ev) (e : GoError)
    (hc : strContains q method = true) (hl : lookupMW gmw method = some dirs)
    (hrun : runDirList ctx method dirs = (evs, some e)) :
    runDirectives ctx gmw q (method :: rest) = (evs, some e) := by
  simp [runDirectives, hc, hl, hrun]

theorem gw_runDirectives_cons_ok (ctx : Nat)
    (gmw : List (String × List (String × GraphQLMiddlewareFunc))) (q : String)
    (method : String) (rest : List String)
    (dirs : List (String × GraphQLMiddlewareFunc)) (evs : List Ev)
    (hc : strContains q method = true) (hl : lookupMW gmw method = some dirs)
    (hrun : runDirList ctx method dirs = (evs, none)) :
    runDirectives ctx gmw q (method :: rest) =
      (evs ++ (runDirectives ctx gmw q rest).1,
       (runDirectives ctx gmw q rest).2) := by
  simp [runDirectives, hc, hl, hrun]

theorem gw_runDirectives_ok (ctx : Nat)
    (gmw : List (String × List (String × GraphQLMiddlewareFunc))) (q : String)
    (hsucc : ∀ mth dirs, lookupMW gmw mth = some dirs →
      ∀ d ∈ dirs, d.2 ctx mth = none) :
    ∀ names, runDirectives ctx gmw q names = (dispatchEvs gmw q names, none) := by
  intro names
  induction names with
  | nil => rfl
  | cons method rest ih =>
    cases hc : strContains q method with
    | false =>
      rw [gw_runDirectives_cons_skip ctx gmw q method rest hc, ih]
      simp [dispatchEvs, hc]
    | true =>
      cases hl : lookupMW gmw method with
      | none =>
        rw [gw_runDirectives_cons_nomw ctx gmw q method rest hc hl, ih]
        simp [dispatchEvs, hc, hl]
      | some dirs =>
        rw [gw_runDirectives_cons_ok ctx gmw q method rest dirs
            (dirs.map (fun d => Ev.directive method d.1)) hc hl
            (gw_runDirList_ok ctx method dirs (hsucc method dirs hl)), ih]
        simp [dispatchEvs, hc, hl]

theorem gw_runDirectives_pure (ctx : Nat)
    (gmw : List (String × List (String × GraphQLMiddlewareFunc))) (q : String) :
    ∀ names, ∀ ev ∈ (runDirectives ctx gmw q names).1,
      ∃ m dn, ev = Ev.directive m dn := by
  intro names
  induction names with
  | nil => intro ev hev; cases hev
  | cons method rest ih =>
    intro ev hev
    cases hc : strContains q method with
    | false =>
      rw [gw_runDirectives_cons_skip ctx gmw q method rest hc] at hev
      exact ih ev hev
    | true =>
      cases hl : lookupMW gmw method with
      | none =>
        rw [gw_runDirectives_cons_nomw ctx gmw q method rest hc hl] at hev
        exact ih ev hev
      | some dirs =>
        rcases hrun : runDirList ctx method dirs with ⟨evs, r⟩
        cases r with
        | some e =>
          rw [gw_runDirectives_cons_fail ctx gmw q method rest dirs evs e
            hc hl hrun] at hev
          rcases gw_runDirList_pure ctx method dirs ev
              (by rw [hrun]; exact hev) with ⟨dn, hdn⟩
          exact ⟨method, dn, hdn⟩
        | none =>
          rw [gw_runDirectives_cons_ok ctx gmw q method rest dirs evs
            hc hl hrun] at hev
          simp at hev
          rcases hev with hl2 | hl2
          · rcases gw_runDirList_pure ctx method dirs ev
                (by rw [hrun]; exact hl2) with ⟨dn, hdn⟩
            exact ⟨method, dn, hdn⟩
          · exact ih ev hl2

theorem gw_mem_dispatchEvs
    (gmw : List (String × List (String × GraphQLMiddlewareFunc)))
    (q mth dn : String) :
    ∀ names, Ev.directive mth dn ∈ dispatchEvs gmw q names ↔
      (mth ∈ names ∧ strContains q mth = true ∧
        ∃ dirs fn, lookupMW gmw mth = some dirs ∧ (dn, fn) ∈ dirs) := by
  intro names
  induction names with
  | nil => simp [dispatchEvs]
  | cons method rest ih =>
    simp only [dispatchEvs, List.mem_append, ih, List.mem_cons]
    constructor
    · rintro (hin | ⟨hm, hc, hrest⟩)
      · by_cases hc : strContains q method = true
        · rw [if_pos hc] at hin
          cases hl : lookupMW gmw method with
          | none => rw [hl] at hin; cases hin
          | some dirs =>
            rw [hl] at hin
            rcases List.mem_map.mp hin with ⟨d, hd, heq⟩
            injection heq with h1 h2
            subst h1; subst h2
            exact ⟨Or.inl rfl, hc, dirs, d.2, hl, by simpa using hd⟩
        · rw [if_neg hc] at hin; cases hin
      · exact ⟨Or.inr hm, hc, hrest⟩
    · rintro ⟨hm | hm, hc, dirs, fn, hl, hmem⟩
      · subst hm
        refine Or.inl ?_
        rw [if_pos hc, hl]
        exact List.mem_map.mpr ⟨(dn, fn), hmem, rfl⟩
      · exact Or.inr ⟨hm, hc, dirs, fn, hl, hmem⟩

theorem gw_countL_dirList (method dn : String)
    (dirs : List (String × GraphQLMiddlewareFunc)) :
    countL (Ev.directive method dn)
        (dirs.map (fun d => Ev.directive method d.1)) =
      countL dn (dirs.map (fun d => d.1)) := by
  induction dirs with
  | nil => rfl
  | cons d rest ih =>
    by_cases hd : d.1 = dn
    · simp [countL, hd, ih]
    · have hne : Ev.directive method d.1 ≠ Ev.directive method dn := by
        intro hc; injection hc with h1 h2; exact hd h2
      simp [countL, hd, hne, ih]

theorem gw_countL_dirList_ne (method mth dn : String) (hne : method ≠ mth)
    (dirs : List (String × GraphQLMiddlewareFunc)) :
    countL (Ev.directive mth dn)
        (dirs.map (fun d => Ev.directive method d.1)) = 0 := by
  apply gw_countL_eq_zero
  intro x hx
  rcases List.mem_map.mp hx with ⟨d, _, heq⟩
  subst heq
  intro hc
  injection hc with h1 h2
  exact hne h1

theorem gw_countL_dispatchEvs
    (gmw : List (String × List (String × GraphQLMiddlewareFunc)))
    (q mth dn : String) :
    ∀ names, countL (Ev.directive mth dn) (dispatchEvs gmw q names) =
      countL mth names * dirHitCount gmw q mth dn := by
  intro names
  induction names with
  | nil => simp [dispatchEvs, countL]
  | cons method rest ih =>
    simp only [dispatchEvs, gw_countL_append, ih, countL]
    by_cases hm : method = mth
    · subst hm
      simp only [if_pos rfl]
      cases hc : strContains q method with
      | false => simp [dirHitCount, hc, countL]
      | true =>
        cases hl : lookupMW gmw method with
        | none => simp [dirHitCount, hc, hl, countL]
        | some dirs =>
          simp only [if_pos rfl, hc, hl, if_true]
          rw [gw_countL_dirList method dn dirs]
          simp [dirHitCount, hc, hl]
          ring
    · simp only [if_neg hm]
      cases hc : strContains q method with
      | false => simp [countL]
      | true =>
        cases hl : lookupMW gmw method with
        | none => simp [hc, hl, countL]
        | some dirs =>
          simp only [hc, hl, if_true]
          rw [gw_countL_dirList_ne method mth dn hm dirs]
          ring

theorem gw_mapGet_nil (k : String) : mapGet [] k = none := rfl

theorem gw_mapGet_cons (p : String × GqlField) (m : Fields) (k : String) :
    mapGet (p :: m) k = if p.1 = k then some p.2 else mapGet m k := by
  by_cases hp : p.1 = k
  · simp [mapGet, List.find?, hp]
  · simp [mapGet, List.find?, hp]

theorem gw_mapGet_eq_none (m : Fields) (k : String) :
    mapGet m k = none ↔ ∀ p ∈ m, p.1 ≠ k := by
  induction m with
  | nil => simp [gw_mapGet_nil]
  | cons p m ih =>
    rw [gw_mapGet_cons]
    by_cases hp : p.1 = k
    · simp [hp]
    · simp [hp, ih]

theorem gw_mapGet_replace (m : Fields) (k k2 : String) (v : GqlField) :
    mapGet (m.map (fun p => if p.1 = k then (k, v) else p)) k2 =
      if k2 = k then (if m.any (fun p => p.1 = k) then some v else none)
      else mapGet m k2 := by
  induction m with
  | nil => by_cases h : k2 = k <;> simp [gw_mapGet_nil, h]
  | cons p m ih =>
    simp only [List.map_cons, List.any_cons]
    by_cases hp : p.1 = k
    · rw [if_pos hp, gw_mapGet_cons (k, v) _ k2]
      by_cases h2 : k2 = k
      · subst h2
        simp [hp]
      · have hkk2 : ¬(k = k2) := fun hc => h2 hc.symm
        rw [ih, if_neg h2, if_neg h2, gw_mapGet_cons]
        have hpk2 : ¬(p.1 = k2) := by rw [hp]; exact hkk2
        simp [hpk2, hkk2]
    · rw [if_neg hp, gw_mapGet_cons p _ k2, ih, gw_mapGet_cons p m k2]
      by_cases h2 : k2 = k
      · subst h2
        have hd : decide (p.1 = k2) = false := decide_eq_false hp
        simp only [hp]
        cases hany2 : (m.any fun q => decide (q.1 = k2)) <;> simp [hany2]
      · simp [h2]

theorem gw_mapGet_append_single (m : Fields) (k k2 : String) (v : GqlField)
    (hnone : ∀ p ∈ m, p.1 ≠ k) :
    mapGet (m ++ [(k, v)]) k2 = if k2 = k then some v else mapGet m k2 := by
  induction m with
  | nil =>
    rw [List.nil_append, gw_mapGet_cons]
    by_cases h : k2 = k
    · simp [h]
    · have : ¬(k = k2) := fun hc => h hc.symm
      simp [h, this, gw_mapGet_nil]
  | cons p m ih =>
    rw [List.cons_append, gw_mapGet_cons, gw_mapGet_cons,
      ih (fun x hx => hnone x (by simp [hx]))]
    by_cases h2 : k2 = k
    · subst h2
      have hpk2 : ¬(p.1 = k2) := hnone p (by simp)
      simp [hpk2]
    · simp [h2]

theorem gw_mapGet_insert (m : Fields) (k k2 : String) (v : GqlField) :
    mapGet (mapInsert m k v) k2 = if k2 = k then some v else mapGet m k2 := by
  unfold mapInsert
  cases hany : m.any (fun p => p.1 = k) with
  | true =>
    rw [if_pos rfl, gw_mapGet_replace m k k2 v, hany]
    by_cases h2 : k2 = k <;> simp [h2]
  | false =>
    rw [if_neg (by simp)]
    apply gw_mapGet_append_single
    intro p hp
    have h := List.any_eq_false.mp hany p hp
    simpa using h

theorem gw_insertAll_nil (m : Fields) : insertAll m [] = m := rfl

theorem gw_insertAll_cons (m : Fields) (p : String × GqlField) (fs : Fields) :
    insertAll m (p :: fs) = insertAll (mapInsert m p.1 p.2) fs := rfl

theorem gw_mapGet_insertAll_none (fs : Fields) (k : String) :
    ∀ m, mapGet fs k = none → mapGet (insertAll m fs) k = mapGet m k := by
  induction fs with
  | nil => intro m _; rfl
  | cons p fs ih =>
    intro m hnone
    rw [gw_mapGet_cons] at hnone
    by_cases hp : p.1 = k
    · rw [if_pos hp] at hnone; cases hnone
    · rw [if_neg hp] at hnone
      rw [gw_insertAll_cons, ih (mapInsert m p.1 p.2) hnone,
        gw_mapGet_insert]
      have : ¬(k = p.1) := fun hc => hp hc.symm
      rw [if_neg this]

theorem gw_mapGet_insertAll_mem (fs : Fields) (k : String) (v : GqlField)
    (hnodup : (mapKeys fs).Nodup) (hmem : (k, v) ∈ fs) :
    ∀ m, mapGet (insertAll m fs) k = some v := by
  induction fs with
  | nil => cases hmem
  | cons p fs ih =>
    intro m
    rcases List.mem_cons.mp hmem with heq | hmem2
    · have hpk : p.1 = k := by rw [← heq]
      have hknotin : ∀ x ∈ fs, x.1 ≠ k := by
        intro x hx hc
        have h1 : p.1 ∈ mapKeys fs := by
          rw [hpk, ← hc]
          exact List.mem_map.mpr ⟨x, hx, rfl⟩
        exact (List.nodup_cons.mp (by simpa [mapKeys] using hnodup)).1 h1
      have hnone : mapGet fs k = none := (gw_mapGet_eq_none fs k).mpr hknotin
      rw [gw_insertAll_cons, gw_mapGet_insertAll_none fs k _ hnone,
        gw_mapGet_insert]
      rw [← heq]
      simp
    · have hnodup2 : (mapKeys fs).Nodup :=
        (List.nodup_cons.mp (by simpa [mapKeys] using hnodup)).2
      exact ih hnodup2 hmem2 (mapInsert m p.1 p.2)

theorem gw_mapKeys_insert (m : Fields) (k : String) (v : GqlField) :
    mapKeys (mapInsert m k v) =
      if m.any (fun p => p.1 = k) then mapKeys m else mapKeys m ++ [k] := by
  unfold mapInsert
  cases hany : m.any (fun p => p.1 = k) with
  | true =>
    rw [if_pos rfl, if_pos rfl]
    simp only [mapKeys, List.map_map]
    apply List.map_congr_left
    intro p _
    by_cases hp : p.1 = k
    · simp [hp]
    · simp [hp]
  | false =>
    rw [if_neg (by simp), if_neg (by simp)]
    simp [mapKeys]

theorem gw_nodup_keys_insert (m : Fields) (k : String) (v : GqlField)
    (h : (mapKeys m).Nodup) : (mapKeys (mapInsert m k v)).Nodup := by
  rw [gw_mapKeys_insert]
  cases hany : m.any (fun p => p.1 = k) with
  | true => simpa using h
  | false =>
    rw [if_neg (by simp)]
    rw [List.nodup_append]
    refine ⟨h, List.nodup_singleton k, ?_⟩
    intro a ha hb
    simp at hb
    subst hb
    rcases List.mem_map.mp ha with ⟨p, hp, hpk⟩
    have := List.any_eq_false.mp hany p hp
    simp at this
    exact this (by simpa [mapKeys] using hpk)

theorem gw_nodup_keys_insertAll (fs : Fields) :
    ∀ m, (mapKeys m).Nodup → (mapKeys (insertAll m fs)).Nodup := by
  induction fs with
  | nil => intro m h; exact h
  | cons p fs ih =>
    intro m h
    rw [gw_insertAll_cons]
    exact ih (mapInsert m p.1 p.2) (gw_nodup_keys_insert m p.1 p.2 h)

theorem gw_nodup_keys_foldl (f : GraphqlHandler → Fields)
    (hs : List GraphqlHandler) :
    ∀ acc, (mapKeys acc).Nodup →
      (mapKeys (hs.foldl (fun a h => insertAll a (f h)) acc)).Nodup := by
  induction hs with
  | nil => intro acc h; exact h
  | cons g hs ih =>
    intro acc h
    rw [List.foldl_cons]
    exact ih (insertAll acc (f g)) (gw_nodup_keys_insertAll (f g) acc h)

theorem gw_mapGet_foldl_none (f : GraphqlHandler → Fields) (k : String)
    (hs : List GraphqlHandler) (hnone : ∀ h ∈ hs, mapGet (f h) k = none) :
    ∀ acc, mapGet (hs.foldl (fun a h => insertAll a (f h)) acc) k =
      mapGet acc k := by
  induction hs with
  | nil => intro acc; rfl
  | cons g hs ih =>
    intro acc
    rw [List.foldl_cons,
      ih (fun h hh => hnone h (by simp [hh])) (insertAll acc (f g)),
      gw_mapGet_insertAll_none (f g) k acc (hnone g (by simp))]

theorem gw_afterConn_schemaError (eng : Engine)
    (gmw : List (String × List (String × GraphQLMiddlewareFunc)))
    (ctx : Nat) (parsed : Except String Request) (qs ms : Fields) (e : String)
    (hsch : eng.newSchema (buildSchemaConfig qs ms) = Except.error e) :
    afterConn eng gmw ctx parsed qs ms =
      ([Ev.buildSchema],
       { errors := [{ message := "Failed to build schema: " ++ e,
                      code := "SCHEMA_GENERATION_ERROR" }] }) := by
  simp [afterConn, hsch]

theorem gw_afterConn_parseError (eng : Engine)
    (gmw : List (String × List (String × GraphQLMiddlewareFunc)))
    (ctx : Nat) (qs ms : Fields) (sch : Nat) (e : String)
    (hsch : eng.newSchema (buildSchemaConfig qs ms) = Except.ok sch) :
    afterConn eng gmw ctx (Except.error e) qs ms =
      ([Ev.buildSchema],
       { errors := [{ message := "Failed to parse request: " ++ e,
                      code := "REQUEST_PARSE_ERROR" }] }) := by
  simp [afterConn, hsch]

theorem gw_afterConn_dirError (eng : Engine)
    (gmw : List (String × List (String × GraphQLMiddlewareFunc)))
    (ctx : Nat) (req : Request) (qs ms : Fields) (sch : Nat)
    (dEvs : List Ev) (e : GoError)
    (hsch : eng.newSchema (buildSchemaConfig qs ms) = Except.ok sch)
    (hdir : runDirectives ctx gmw req.query (mapKeys qs ++ mapKeys ms) =
      (dEvs, some e)) :
    afterConn eng gmw ctx (Except.ok req) qs ms =
      (Ev.buildSchema :: dEvs,
       { errors := [mwErrorEnvelope "DIRECTIVE_MIDDLEWARE_ERROR" e] }) := by
  simp [afterConn, hsch, hdir]

theorem gw_afterConn_execute (eng : Engine)
    (gmw : List (String × List (String × GraphQLMiddlewareFunc)))
    (ctx : Nat) (req : Request) (qs ms : Fields) (sch : Nat) (dEvs : List Ev)
    (hsch : eng.newSchema (buildSchemaConfig qs ms) = Except.ok sch)
    (hdir : runDirectives ctx gmw req.query (mapKeys qs ++ mapKeys ms) =
      (dEvs, none)) :
    afterConn eng gmw ctx (Except.ok req) qs ms =
      (Ev.buildSchema :: dEvs ++ [Ev.execute], eng.exec sch req.query) := by
  simp [afterConn, hsch, hdir]

theorem gw_afterConn_pure (eng : Engine)
    (gmw : List (String × List (String × GraphQLMiddlewareFunc)))
    (ctx : Nat) (parsed : Except String Request) (qs ms : Fields) :
    ∀ ev ∈ (afterConn eng gmw ctx parsed qs ms).1,
      ev = Ev.buildSchema ∨ (∃ m dn, ev = Ev.directive m dn) ∨
        ev = Ev.execute := by
  intro ev hev
  cases hsch : eng.newSchema (buildSchemaConfig qs ms) with
  | error e =>
    rw [gw_afterConn_schemaError eng gmw ctx parsed qs ms e hsch] at hev
    simp at hev
    exact Or.inl hev
  | ok sch =>
    cases parsed with
    | error e =>
      rw [gw_afterConn_parseError eng gmw ctx qs ms sch e hsch] at hev
      simp at hev
      exact Or.inl hev
    | ok req =>
      rcases hdir : runDirectives ctx gmw req.query (mapKeys qs ++ mapKeys ms)
        with ⟨dEvs, r⟩
      cases r with
      | some e =>
        rw [gw_afterConn_dirError eng gmw ctx req qs ms sch dEvs e
          hsch hdir] at hev
        simp at hev
        rcases hev with h | h
        · exact Or.inl h
        · rcases gw_runDirectives_pure ctx gmw req.query
              (mapKeys qs ++ mapKeys ms) ev (by rw [hdir]; exact h)
            with ⟨m, dn, hmd⟩
          exact Or.inr (Or.inl ⟨m, dn, hmd⟩)
      | none =>
        rw [gw_afterConn_execute eng gmw ctx req qs ms sch dEvs hsch hdir] at hev
        simp at hev
        rcases hev with h | h | h
        · exact Or.inl h
        · rcases gw_runDirectives_pure ctx gmw req.query
              (mapKeys qs ++ mapKeys ms) ev (by rw [hdir]; exact h)
            with ⟨m, dn, hmd⟩
          exact Or.inr (Or.inl ⟨m, dn, hmd⟩)
        · exact Or.inr (Or.inr h)

theorem gw_serveHTTP_mwError (eng : Engine) (s : ServeMux)
    (parsed : Except String Request) (ctx0 : Nat) (mwEvs : List Ev)
    (e : GoError)
    (hmw : runMiddlewaresTraced s.middlewares 0 ctx0 = (mwEvs, Except.error e)) :
    serveHTTP eng s parsed ctx0 =
      (mwEvs,
       respondResult { errors := [mwErrorEnvelope "MIDDLEWARE_ERROR" e] }) := by
  simp [serveHTTP, hmw]

theorem gw_serveHTTP_connError (eng : Engine) (s : ServeMux)
    (parsed : Except String Request) (ctx0 ctx : Nat) (mwEvs hEvs : List Ev)
    (cls : List Nat) (e : String)
    (hmw : runMiddlewaresTraced s.middlewares 0 ctx0 = (mwEvs, Except.ok ctx))
    (hhl : handlerLoop ctx s.handlers 0 [] [] = (hEvs, cls, Except.error e)) :
    serveHTTP eng s parsed ctx0 =
      (mwEvs ++ hEvs ++ (cls.reverse.map Ev.release),
       respondResult
         { errors := [{ message := "Failed to create grpc connection: " ++ e,
                        code := "GRPC_CONNECT_ERROR" }] }) := by
  simp [serveHTTP, hmw, hhl]

theorem gw_serveHTTP_conn_ok (eng : Engine) (s : ServeMux)
    (parsed : Except String Request) (ctx0 ctx : Nat) (mwEvs hEvs : List Ev)
    (cls : List Nat) (qs ms : Fields)
    (hmw : runMiddlewaresTraced s.middlewares 0 ctx0 = (mwEvs, Except.ok ctx))
    (hhl : handlerLoop ctx s.handlers 0 [] [] = (hEvs, cls, Except.ok (qs, ms))) :
    serveHTTP eng s parsed ctx0 =
      (mwEvs ++ hEvs ++ (afterConn eng s.graphQLMiddlewares ctx parsed qs ms).1
         ++ (cls.reverse.map Ev.release),
       respondResult (afterConn eng s.graphQLMiddlewares ctx parsed qs ms).2) := by
  simp [serveHTTP, hmw, hhl]

theorem gw_countL_acquire_mwEvs (ms : List MiddlewareFunc) (i0 c i : Nat)
    (b : Bool) : countL (Ev.acquire i b) (runMiddlewaresTraced ms i0 c).1 = 0 := by
  apply gw_countL_eq_zero
  intro x hx
  rcases gw_runMWT_pure ms i0 c x hx with ⟨j, cj, hj, _, _⟩
  subst hj
  exact fun hc => Ev.noConfusion hc

theorem gw_countL_release_mwEvs (ms : List MiddlewareFunc) (i0 c i : Nat) :
    countL (Ev.release i) (runMiddlewaresTraced ms i0 c).1 = 0 := by
  apply gw_countL_eq_zero
  intro x hx
  rcases gw_runMWT_pure ms i0 c x hx with ⟨j, cj, hj, _, _⟩
  subst hj
  exact fun hc => Ev.noConfusion hc

theorem gw_countL_acquire_afterConn (eng : Engine)
    (gmw : List (String × List (String × GraphQLMiddlewareFunc)))
    (ctx : Nat) (parsed : Except String Request) (qs ms : Fields) (i : Nat)
    (b : Bool) :
    countL (Ev.acquire i b) (afterConn eng gmw ctx parsed qs ms).1 = 0 := by
  apply gw_countL_eq_zero
  intro x hx
  rcases gw_afterConn_pure eng gmw ctx parsed qs ms x hx with h | ⟨m, dn, h⟩ | h
  · subst h; exact fun hc => Ev.noConfusion hc
  · subst h; exact fun hc => Ev.noConfusion hc
  · subst h; exact fun hc => Ev.noConfusion hc

theorem gw_countL_release_afterConn (eng : Engine)
    (gmw : List (String × List (String × GraphQLMiddlewareFunc)))
    (ctx : Nat) (parsed : Except String Request) (qs ms : Fields) (i : Nat) :
    countL (Ev.release i) (afterConn eng gmw ctx parsed qs ms).1 = 0 := by
  apply gw_countL_eq_zero
  intro x hx
  rcases gw_afterConn_pure eng gmw ctx parsed qs ms x hx with h | ⟨m, dn, h⟩ | h
  · subst h; exact fun hc => Ev.noConfusion hc
  · subst h; exact fun hc => Ev.noConfusion hc
  · subst h; exact fun hc => Ev.noConfusion hc

theorem gw_countL_acquire_releases (l : List Nat) (i : Nat) (b : Bool) :
    countL (Ev.acquire i b) (l.map Ev.release) = 0 := by
  apply gw_countL_eq_zero
  intro x hx
  rcases List.mem_map.mp hx with ⟨j, _, hj⟩
  subst hj
  exact fun hc => Ev.noConfusion hc

theorem gw_countL_release_acquires (l : List Nat) (i : Nat) (b : Bool) :
    countL (Ev.release i) (l.map (fun j => Ev.acquire j b)) = 0 := by
  apply gw_countL_eq_zero
  intro x hx
  rcases List.mem_map.mp hx with ⟨j, _, hj⟩
  subst hj
  exact fun hc => Ev.noConfusion hc

theorem gw_countL_release_map (l : List Nat) (i : Nat) :
    countL (Ev.release i) (l.map Ev.release) = countL i l :=
  gw_countL_map Ev.release (fun x y hxy => by injection hxy) i l

theorem gw_countL_acquire_map (l : List Nat) (i : Nat) (b : Bool) :
    countL (Ev.acquire i b) (l.map (fun j => Ev.acquire j b)) = countL i l :=
  gw_countL_map (fun j => Ev.acquire j b)
    (fun x y hxy => by injection hxy) i l

theorem gw_lookupMW_mem
    (gmw : List (String × List (String × GraphQLMiddlewareFunc)))
    (mth : String) (dirs : List (String × GraphQLMiddlewareFunc))
    (hl : lookupMW gmw mth = some dirs) : ∃ p ∈ gmw, p.2 = dirs := by
  unfold lookupMW at hl
  cases hf : gmw.find? (fun p => p.1 = mth) with
  | none => rw [hf] at hl; cases hl
  | some p =>
    rw [hf] at hl
    simp at hl
    exact ⟨p, List.mem_of_find?_eq_some hf, hl⟩

theorem gw_handlerLoop_nodup (ctx : Nat) (hs : List GraphqlHandler) :
    ∀ (i : Nat) (qs0 ms0 : Fields) (evs : List Ev) (cls : List Nat)
      (qs ms : Fields),
    handlerLoop ctx hs i qs0 ms0 = (evs, cls, Except.ok (qs, ms)) →
    (mapKeys qs0).Nodup → (mapKeys ms0).Nodup →
    (mapKeys qs).Nodup ∧ (mapKeys ms).Nodup := by
  induction hs with
  | nil =>
    intro i qs0 ms0 evs cls qs ms heq h1 h2
    rw [gw_handlerLoop_nil] at heq
    injection heq with he1 he2
    injection he2 with he2 he3
    injection he3 with he3
    injection he3 with hq hm
    exact ⟨hq ▸ h1, hm ▸ h2⟩
  | cons h hs ih =>
    intro i qs0 ms0 evs cls qs ms heq h1 h2
    cases hc : h.createConnection ctx with
    | some e =>
      rw [gw_handlerLoop_cons_fail ctx h hs i qs0 ms0 e hc] at heq
      injection heq with he1 he2
      injection he2 with he2 he3
      cases he3
    | none =>
      rw [gw_handlerLoop_cons_ok ctx h hs i qs0 ms0 hc] at heq
      injection heq with he1 he2
      injection he2 with he2 he3
      rcases hrec : handlerLoop ctx hs (i + 1)
          (insertAll qs0 (h.getQueries true))
          (insertAll ms0 (h.getMutations true)) with ⟨evs2, cls2, res2⟩
      have hres : res2 = Except.ok (qs, ms) := by
        rw [hrec] at he3; exact he3
      subst hres
      exact ih (i + 1) (insertAll qs0 (h.getQueries true))
        (insertAll ms0 (h.getMutations true)) evs2 cls2 qs ms hrec
        (gw_nodup_keys_insertAll (h.getQueries true) qs0 h1)
        (gw_nodup_keys_insertAll (h.getMutations true) ms0 h2)

/-- C9: every response produced by `ServeMux.ServeHTTP` goes through
`respondResult` and therefore carries the success HTTP status 200, on every
pipeline branch (middleware, connection, schema, parse, directive failure)
and for every execution result, business errors included; no 4xx or 5xx
status is ever produced. (The JSON serialization itself is the external
`json.Marshal`; the modelled response carries the marshalled result.) -/
theorem gw_always_status_200 (eng : Engine) (s : ServeMux)
    (parsed : Except String Request) (ctx0 : Nat) :
    (serveHTTP eng s parsed ctx0).2.status = 200 := by
  rcases hmw : runMiddlewaresTraced s.middlewares 0 ctx0 with ⟨mwEvs, r⟩
  cases r with
  | error e =>
    rw [gw_serveHTTP_mwError eng s parsed ctx0 mwEvs e hmw]
    rfl
  | ok ctx =>
    rcases hhl : handlerLoop ctx s.handlers 0 [] [] with ⟨hEvs, cls, res⟩
    cases res with
    | error e =>
      rw [gw_serveHTTP_connError eng s parsed ctx0 ctx mwEvs hEvs cls e hmw hhl]
      rfl
    | ok pr =>
      rcases pr with ⟨qs, ms⟩
      rw [gw_serveHTTP_conn_ok eng s parsed ctx0 ctx mwEvs hEvs cls qs ms
        hmw hhl]
      rfl

/-- C8: `AddHandler` validates a handler by listing its fields with no
connection and dry-building a schema: with both field lists empty the
validation is skipped and the handler is appended; when the non-empty
fields fail schema construction, `AddHandler` returns the wrapped error and
the registry is unchanged; when schema construction succeeds the handler is
appended. -/
theorem gw_addHandler_validation (eng : Engine) (s : ServeMux)
    (h : GraphqlHandler) :
    ((h.getQueries false).length = 0 ∧ (h.getMutations false).length = 0 →
      addHandler eng s h = ({ s with handlers := s.handlers ++ [h] }, none)) ∧
    (∀ e, eng.newSchema (buildSchemaConfig (h.getQueries false)
          (h.getMutations false)) = Except.error e →
      ¬((h.getQueries false).length = 0 ∧ (h.getMutations false).length = 0) →
      addHandler eng s h = (s, some ("Schema validation error: " ++ e))) ∧
    (∀ n, eng.newSchema (buildSchemaConfig (h.getQueries false)
          (h.getMutations false)) = Except.ok n →
      addHandler eng s h = ({ s with handlers := s.handlers ++ [h] }, none)) := by
  refine ⟨?_, ?_, ?_⟩
  · intro hempty
    simp [addHandler, validateHandler, hempty]
  · intro e hsch hnonempty
    have hne : ¬(h.getQueries false = [] ∧ h.getMutations false = []) := by
      simpa [List.length_eq_zero] using hnonempty
    simp [addHandler, validateHandler, hne, hsch]
  · intro n hsch
    by_cases hempty :
        (h.getQueries false).length = 0 ∧ (h.getMutations false).length = 0
    · simp [addHandler, validateHandler, hempty]
    · have hne : ¬(h.getQueries false = [] ∧ h.getMutations false = []) := by
        simpa [List.length_eq_zero] using hempty
      simp [addHandler, validateHandler, hne, hsch]

/-- Witness for C8: registering the non-empty handler `hHello` against the
always-failing engine returns the wrapped schema error and leaves the
registry unchanged, by `gw_addHandler_validation`. -/
theorem gw_addHandler_validation_witness :
    addHandler engBad { handlers := [] } hHello =
      ({ handlers := [] }, some "Schema validation error: bad type graph") :=
  (gw_addHandler_validation engBad { handlers := [] } hHello).2.1
    "bad type graph" rfl (by decide)

/-- C2: the global middlewares run strictly in registration order, each
invocation receiving the context produced by folding its predecessors; when
the middleware at index `pre.length` fails, the response carries exactly one
envelope, the trace ends at that invocation (no later middleware runs), and
every trace event is a middleware invocation of index at most `pre.length` —
in particular no connection is acquired and no schema is built. -/
theorem gw_middleware_short_circuit (eng : Engine) (s : ServeMux)
    (parsed : Except String Request) (ctx0 : Nat)
    (pre : List MiddlewareFunc) (m : MiddlewareFunc)
    (post : List MiddlewareFunc) (e : GoError) (c : Nat)
    (hms : s.middlewares = pre ++ m :: post)
    (hpre : runMiddlewares pre ctx0 = Except.ok c)
    (hm : m c = Except.error e) :
    serveHTTP eng s parsed ctx0 =
      ((runMiddlewaresTraced pre 0 ctx0).1 ++ [Ev.mw pre.length c],
       respondResult { errors := [mwErrorEnvelope "MIDDLEWARE_ERROR" e] }) ∧
    (serveHTTP eng s parsed ctx0).1.length = pre.length + 1 ∧
    (∀ k, k < pre.length + 1 →
      ∃ ck, runMiddlewares (s.middlewares.take k) ctx0 = Except.ok ck ∧
        (serveHTTP eng s parsed ctx0).1.get? k = some (Ev.mw k ck)) ∧
    (∀ ev ∈ (serveHTTP eng s parsed ctx0).1,
      ∃ j cj, ev = Ev.mw j cj ∧ j ≤ pre.length) := by
  have htail : runMiddlewaresTraced (m :: post) (0 + pre.length) c =
      ([Ev.mw (0 + pre.length) c], Except.error e) :=
    gw_runMWT_cons_error m post (0 + pre.length) c e hm
  have hfull : runMiddlewaresTraced s.middlewares 0 ctx0 =
      ((runMiddlewaresTraced pre 0 ctx0).1 ++ [Ev.mw pre.length c],
       Except.error e) := by
    rw [hms, gw_runMWT_append_ok pre (m :: post) 0 ctx0 c hpre, htail]
    simp
  have hlen : (runMiddlewaresTraced pre 0 ctx0).1.length = pre.length :=
    gw_runMWT_length_ok pre 0 ctx0 c hpre
  have hserve := gw_serveHTTP_mwError eng s parsed ctx0 _ e hfull
  refine ⟨hserve, ?_, ?_, ?_⟩
  · rw [hserve]
    simp [hlen]
  · intro k hk
    have hklen : k < (runMiddlewaresTraced s.middlewares 0 ctx0).1.length := by
      rw [hfull]
      simp [hlen]
      omega
    rcases gw_runMWT_get s.middlewares 0 ctx0 k hklen with ⟨ck, hck1, hck2⟩
    refine ⟨ck, hck1, ?_⟩
    rw [hserve]
    rw [hfull] at hck2
    simpa using hck2
  · intro ev hev
    rw [hserve] at hev
    simp at hev
    rcases hev with h | h
    · rcases gw_runMWT_pure pre 0 ctx0 ev h with ⟨j, cj, hj1, _, hj3⟩
      exact ⟨j, cj, hj1, by omega⟩
    · exact ⟨pre.length, c, h, Nat.le_refl _⟩

/-- Witness for C2: with middlewares `[mwBump, mwReject, mwLate]` and initial
context 7, the bump middleware runs with context 7, the rejecting middleware
runs with context 8 and fails, the late middleware never runs, and the
response is the single typed envelope, by `gw_middleware_short_circuit`. -/
theorem gw_middleware_short_circuit_witness :
    serveHTTP engOk muxMw (Except.ok { query := "{ hello }" }) 7 =
      ([Ev.mw 0 7, Ev.mw 1 8],
       respondResult
         { errors := [{ message := "no token", code := "UNAUTHORIZED" }] }) :=
  (gw_middleware_short_circuit engOk muxMw (Except.ok { query := "{ hello }" })
    7 [mwBump] mwReject [mwLate]
    (GoError.middlewareError "UNAUTHORIZED" "no token") 8 rfl rfl rfl).1

/-- C4: when every handler before `hf` acquires its connection and `hf`
fails with message `emsg`, the request aborts with a single envelope of code
`GRPC_CONNECT_ERROR` whose message contains `emsg`; no handler after `hf`
is attempted (no acquisition event with a larger index occurs) and every
handler acquired earlier is released exactly once before the function
returns. -/
theorem gw_connect_failure_aborts (eng : Engine) (s : ServeMux)
    (parsed : Except String Request) (ctx0 ctx : Nat) (mwEvs : List Ev)
    (pre : List GraphqlHandler) (hf : GraphqlHandler)
    (post : List GraphqlHandler) (emsg : String)
    (hmw : runMiddlewaresTraced s.middlewares 0 ctx0 = (mwEvs, Except.ok ctx))
    (hhs : s.handlers = pre ++ hf :: post)
    (hpre : ∀ h ∈ pre, h.createConnection ctx = none)
    (hfail : hf.createConnection ctx = some emsg) :
    serveHTTP eng s parsed ctx0 =
      (mwEvs ++ ((idxFrom 0 pre.length).map (fun j => Ev.acquire j true) ++
          [Ev.acquire pre.length false]) ++
        ((idxFrom 0 pre.length).reverse.map Ev.release),
       respondResult
         { errors := [{ message := "Failed to create grpc connection: " ++ emsg,
                        code := "GRPC_CONNECT_ERROR" }] }) ∧
    (∀ j b, pre.length < j →
      Ev.acquire j b ∉ (serveHTTP eng s parsed ctx0).1) ∧
    (∀ j, j < pre.length →
      countL (Ev.release j) (serveHTTP eng s parsed ctx0).1 = 1) := by
  have hhl : handlerLoop ctx s.handlers 0 [] [] =
      ((idxFrom 0 pre.length).map (fun j => Ev.acquire j true) ++
        [Ev.acquire (0 + pre.length) false],
       idxFrom 0 pre.length, Except.error emsg) := by
    rw [hhs]
    exact gw_handlerLoop_fail ctx pre hf post 0 [] [] hpre emsg hfail
  rw [Nat.zero_add] at hhl
  have hserve := gw_serveHTTP_connError eng s parsed ctx0 ctx mwEvs _ _ emsg
    hmw hhl
  refine ⟨hserve, ?_, ?_⟩
  · intro j b hj
    rw [hserve]
    intro hmem
    rcases List.mem_append.mp hmem with hm | hm3
    · rcases List.mem_append.mp hm with hm1 | hm2
      · rcases gw_runMWT_pure s.middlewares 0 ctx0 _ (by rw [hmw]; exact hm1)
          with ⟨j2, cj, hj2, _, _⟩
        exact Ev.noConfusion hj2
      · rcases List.mem_append.mp hm2 with hm2a | hm2b
        · rcases List.mem_map.mp hm2a with ⟨j2, hj2, hj2e⟩
          injection hj2e with h1 h2
          have := (gw_mem_idxFrom j2 0 pre.length).mp hj2
          omega
        · rcases List.mem_singleton.mp hm2b with h
          injection h with h1 h2
          omega
    · rcases List.mem_map.mp hm3 with ⟨j2, _, hj2e⟩
      exact Ev.noConfusion hj2e
  · intro j hj
    rw [hserve]
    have z1 : countL (Ev.release j) mwEvs = 0 := by
      apply gw_countL_eq_zero
      intro x hx
      rcases gw_runMWT_pure s.middlewares 0 ctx0 x (by rw [hmw]; exact hx)
        with ⟨j2, cj, hj2, _, _⟩
      subst hj2
      exact fun hc => Ev.noConfusion hc
    have z2 : countL (Ev.release j)
        ((idxFrom 0 pre.length).map (fun j => Ev.acquire j true)) = 0 :=
      gw_countL_release_acquires (idxFrom 0 pre.length) j true
    have z3 : countL (Ev.release j) [Ev.acquire pre.length false] = 0 := by
      apply gw_countL_eq_zero
      intro x hx
      rcases List.mem_singleton.mp hx with h
      subst h
      exact fun hc => Ev.noConfusion hc
    have z4 : countL (Ev.release j)
        ((idxFrom 0 pre.length).reverse.map Ev.release) = 1 := by
      rw [gw_countL_release_map (idxFrom 0 pre.length).reverse j,
        gw_countL_reverse, gw_countL_idxFrom]
      have hcond : 0 ≤ j ∧ j < 0 + pre.length := by omega
      rw [if_pos hcond]
    simp only [gw_countL_append, z1, z2, z3, z4]

/-- Witness for C4: with handlers `[hHello, hDial]`, the first handler
acquires and is released, the second fails with `dial refused`, the later
loop body never runs, and the single envelope carries `GRPC_CONNECT_ERROR`
with the underlying message, by `gw_connect_failure_aborts`. -/
theorem gw_connect_failure_aborts_witness :
    serveHTTP engOk muxConn (Except.ok { query := "{ hello }" }) 0 =
      ([Ev.acquire 0 true, Ev.acquire 1 false, Ev.release 0],
       respondResult
         { errors :=
             [{ message := "Failed to create grpc connection: dial refused",
                code := "GRPC_CONNECT_ERROR" }] }) :=
  (gw_connect_failure_aborts engOk muxConn (Except.ok { query := "{ hello }" })
    0 0 [] [hHello] hDial [] "dial refused" rfl rfl
    (by intro h hh; simp at hh; subst hh; rfl) rfl).1

/-- C1 (amended): when the body cannot be decoded and the earlier pipeline
stages succeed, the gateway responds with a single envelope of kind
`REQUEST_PARSE_ERROR` and aborts before directive dispatch and execution;
however, request parsing happens only after the handler connection loop and
the schema construction, so every handler connection has already been
acquired (and is released) and the schema has already been built. -/
theorem gw_parse_error_after_connections (eng : Engine) (s : ServeMux)
    (ctx0 ctx : Nat) (mwEvs hEvs : List Ev) (cls : List Nat) (qs ms : Fields)
    (sch : Nat) (e : String)
    (hmw : runMiddlewaresTraced s.middlewares 0 ctx0 = (mwEvs, Except.ok ctx))
    (hhl : handlerLoop ctx s.handlers 0 [] [] = (hEvs, cls, Except.ok (qs, ms)))
    (hsch : eng.newSchema (buildSchemaConfig qs ms) = Except.ok sch) :
    serveHTTP eng s (Except.error e) ctx0 =
      (mwEvs ++ hEvs ++ [Ev.buildSchema] ++ (cls.reverse.map Ev.release),
       respondResult
         { errors := [{ message := "Failed to parse request: " ++ e,
                        code := "REQUEST_PARSE_ERROR" }] }) ∧
    (∀ m dn, Ev.directive m dn ∉ (serveHTTP eng s (Except.error e) ctx0).1) ∧
    Ev.execute ∉ (serveHTTP eng s (Except.error e) ctx0).1 := by
  have hac := gw_afterConn_parseError eng s.graphQLMiddlewares ctx qs ms sch
    e hsch
  have hserve := gw_serveHTTP_conn_ok eng s (Except.error e) ctx0 ctx mwEvs
    hEvs cls qs ms hmw hhl
  rw [hac] at hserve
  refine ⟨hserve, ?_, ?_⟩
  · intro m dn
    rw [hserve]
    intro hmem
    rcases List.mem_append.mp hmem with hm | hm4
    · rcases List.mem_append.mp hm with hm12 | hm3
      · rcases List.mem_append.mp hm12 with hm1 | hm2
        · rcases gw_runMWT_pure s.middlewares 0 ctx0 _
            (by rw [hmw]; exact hm1) with ⟨j, cj, hj, _, _⟩
          exact Ev.noConfusion hj
        · rcases gw_handlerLoop_pure ctx s.handlers 0 [] [] _
            (by rw [hhl]; exact hm2) with ⟨j, b, hj⟩
          exact Ev.noConfusion hj
      · rcases List.mem_singleton.mp hm3 with h
        exact Ev.noConfusion h
    · rcases List.mem_map.mp hm4 with ⟨j, _, hj⟩
      exact Ev.noConfusion hj
  · rw [hserve]
    intro hmem
    rcases List.mem_append.mp hmem with hm | hm4
    · rcases List.mem_append.mp hm with hm12 | hm3
      · rcases List.mem_append.mp hm12 with hm1 | hm2
        · rcases gw_runMWT_pure s.middlewares 0 ctx0 _
            (by rw [hmw]; exact hm1) with ⟨j, cj, hj, _, _⟩
          exact Ev.noConfusion hj
        · rcases gw_handlerLoop_pure ctx s.handlers 0 [] [] _
            (by rw [hhl]; exact hm2) with ⟨j, b, hj⟩
          exact Ev.noConfusion hj
      · rcases List.mem_singleton.mp hm3 with h
        exact Ev.noConfusion h
    · rcases List.mem_map.mp hm4 with ⟨j, _, hj⟩
      exact Ev.noConfusion hj

/-- Witness for C1 (amended): with one healthy handler and a malformed body,
the connection is acquired, the schema is built, the single envelope is the
parse error and the connection is released, by
`gw_parse_error_after_connections`. -/
theorem gw_parse_error_after_connections_witness :
    serveHTTP engOk muxHello (Except.error "unexpected EOF") 0 =
      ([Ev.acquire 0 true, Ev.buildSchema, Ev.release 0],
       respondResult
         { errors := [{ message := "Failed to parse request: unexpected EOF",
                        code := "REQUEST_PARSE_ERROR" }] }) :=
  (gw_parse_error_after_connections engOk muxHello 0 0 []
    [Ev.acquire 0 true] [0] [("hello", 1)] [] 0 "unexpected EOF"
    rfl rfl rfl).1

/-- Counterexample to C1 as stated: with one registered healthy handler and
an undecodable body, `ServeHTTP` does invoke the handler connection
acquisition (exactly once) and does build the schema before responding with
the `REQUEST_PARSE_ERROR` envelope, contradicting the claim that the parse
failure aborts before any handler is touched and before a schema is built. -/
theorem gw_parse_before_handlers_refuted :
    countL (Ev.acquire 0 true)
        (serveHTTP engOk muxHello (Except.error "unexpected EOF") 0).1 = 1 ∧
    Ev.buildSchema ∈
      (serveHTTP engOk muxHello (Except.error "unexpected EOF") 0).1 ∧
    (serveHTTP engOk muxHello (Except.error "unexpected EOF") 0).2.result.errors
      = [{ message := "Failed to parse request: unexpected EOF",
           code := "REQUEST_PARSE_ERROR" }] :=
  ⟨by decide, by decide, by decide⟩

theorem gw_countL_acquire_map_cross (l : List Nat) (i : Nat) (b b2 : Bool)
    (hbb : b ≠ b2) :
    countL (Ev.acquire i b2) (l.map (fun j => Ev.acquire j b)) = 0 := by
  apply gw_countL_eq_zero
  intro x hx
  rcases List.mem_map.mp hx with ⟨j, _, hj⟩
  subst hj
  intro hc
  injection hc with h1 h2
  exact hbb h2

/-- C3 (amended): during one request each registered handler is subject to
at most one connection-acquisition attempt (none at all once a global
middleware or an earlier handler has failed), and a release action runs
exactly once for every successful acquisition — and for no other handler —
before `ServeHTTP` returns, whatever the outcome of the later pipeline
stages. -/
theorem gw_release_discipline (eng : Engine) (s : ServeMux)
    (parsed : Except String Request) (ctx0 i : Nat) :
    countL (Ev.acquire i true) (serveHTTP eng s parsed ctx0).1 +
      countL (Ev.acquire i false) (serveHTTP eng s parsed ctx0).1 ≤ 1 ∧
    countL (Ev.release i) (serveHTTP eng s parsed ctx0).1 =
      countL (Ev.acquire i true) (serveHTTP eng s parsed ctx0).1 := by
  rcases hmw : runMiddlewaresTraced s.middlewares 0 ctx0 with ⟨mwEvs, r⟩
  have zmwT : countL (Ev.acquire i true) mwEvs = 0 := by
    have h0 := gw_countL_acquire_mwEvs s.middlewares 0 ctx0 i true
    rw [hmw] at h0; exact h0
  have zmwF : countL (Ev.acquire i false) mwEvs = 0 := by
    have h0 := gw_countL_acquire_mwEvs s.middlewares 0 ctx0 i false
    rw [hmw] at h0; exact h0
  have zmwR : countL (Ev.release i) mwEvs = 0 := by
    have h0 := gw_countL_release_mwEvs s.middlewares 0 ctx0 i
    rw [hmw] at h0; exact h0
  cases r with
  | error e =>
    rw [gw_serveHTTP_mwError eng s parsed ctx0 mwEvs e hmw]
    simp [zmwT, zmwF, zmwR]
  | ok ctx =>
    rcases gw_handlerLoop_shape ctx s.handlers 0 [] [] with
      ⟨pr, hpr⟩ | ⟨k, e, hk, hke⟩
    · rcases pr with ⟨qs, ms⟩
      rw [gw_serveHTTP_conn_ok eng s parsed ctx0 ctx _ _ _ qs ms hmw hpr]
      have hT : countL (Ev.acquire i true)
          ((idxFrom 0 s.handlers.length).map (fun j => Ev.acquire j true)) =
          if 0 ≤ i ∧ i < 0 + s.handlers.length then 1 else 0 := by
        rw [gw_countL_acquire_map, gw_countL_idxFrom]
      have hF : countL (Ev.acquire i false)
          ((idxFrom 0 s.handlers.length).map (fun j => Ev.acquire j true)) = 0 :=
        gw_countL_acquire_map_cross (idxFrom 0 s.handlers.length) i true false
          (by simp)
      have hR : countL (Ev.release i)
          ((idxFrom 0 s.handlers.length).reverse.map Ev.release) =
          if 0 ≤ i ∧ i < 0 + s.handlers.length then 1 else 0 := by
        rw [gw_countL_release_map, gw_countL_reverse, gw_countL_idxFrom]
      have hRA : countL (Ev.release i)
          ((idxFrom 0 s.handlers.length).map (fun j => Ev.acquire j true)) = 0 :=
        gw_countL_release_acquires (idxFrom 0 s.handlers.length) i true
      have hacT := gw_countL_acquire_afterConn eng s.graphQLMiddlewares ctx
        parsed qs ms i true
      have hacF := gw_countL_acquire_afterConn eng s.graphQLMiddlewares ctx
        parsed qs ms i false
      have hacR := gw_countL_release_afterConn eng s.graphQLMiddlewares ctx
        parsed qs ms i
      have hArel : countL (Ev.acquire i true)
          ((idxFrom 0 s.handlers.length).reverse.map Ev.release) = 0 :=
        gw_countL_acquire_releases (idxFrom 0 s.handlers.length).reverse i true
      have hArelF : countL (Ev.acquire i false)
          ((idxFrom 0 s.handlers.length).reverse.map Ev.release) = 0 :=
        gw_countL_acquire_releases (idxFrom 0 s.handlers.length).reverse i false
      simp only [gw_countL_append, zmwT, zmwF, zmwR, hT, hF, hR, hRA,
        hacT, hacF, hacR, hArel, hArelF]
      refine ⟨?_, ?_⟩ <;> (split <;> (try split) <;> omega)
    · rw [gw_serveHTTP_connError eng s parsed ctx0 ctx _ _ _ e hmw hke]
      have hT : countL (Ev.acquire i true)
          ((idxFrom 0 k).map (fun j => Ev.acquire j true)) =
          if 0 ≤ i ∧ i < 0 + k then 1 else 0 := by
        rw [gw_countL_acquire_map, gw_countL_idxFrom]
      have hF : countL (Ev.acquire i false)
          ((idxFrom 0 k).map (fun j => Ev.acquire j true)) = 0 :=
        gw_countL_acquire_map_cross (idxFrom 0 k) i true false (by simp)
      have hTs : countL (Ev.acquire i true) [Ev.acquire (0 + k) false] = 0 := by
        apply gw_countL_eq_zero
        intro x hx
        rcases List.mem_singleton.mp hx with h
        subst h
        intro hc
        injection hc with h1 h2
        cases h2
      have hFs : countL (Ev.acquire i false) [Ev.acquire (0 + k) false] =
          if 0 + k = i then 1 else 0 := by
        simp [countL]
      have hR : countL (Ev.release i) ((idxFrom 0 k).reverse.map Ev.release) =
          if 0 ≤ i ∧ i < 0 + k then 1 else 0 := by
        rw [gw_countL_release_map, gw_countL_reverse, gw_countL_idxFrom]
      have hRA : countL (Ev.release i)
          ((idxFrom 0 k).map (fun j => Ev.acquire j true)) = 0 :=
        gw_countL_release_acquires (idxFrom 0 k) i true
      have hRs : countL (Ev.release i) [Ev.acquire (0 + k) false] = 0 := by
        apply gw_countL_eq_zero
        intro x hx
        rcases List.mem_singleton.mp hx with h
        subst h
        exact fun hc => Ev.noConfusion hc
      have hArel : countL (Ev.acquire i true)
          ((idxFrom 0 k).reverse.map Ev.release) = 0 :=
        gw_countL_acquire_releases (idxFrom 0 k).reverse i true
      have hArelF : countL (Ev.acquire i false)
          ((idxFrom 0 k).reverse.map Ev.release) = 0 :=
        gw_countL_acquire_releases (idxFrom 0 k).reverse i false
      simp only [gw_countL_append, zmwT, zmwF, zmwR, hT, hF, hTs, hFs, hR,
        hRA, hRs, hArel, hArelF]
      refine ⟨?_, ?_⟩ <;> (split <;> (try split) <;> omega)

/-- Counterexample to C3 as stated: with three registered handlers of which
the second fails to acquire, the third registered handler receives zero
acquisition attempts during the request — not exactly one — while the first
is acquired and released exactly once and the request aborts with a single
envelope. -/
theorem gw_one_acquisition_per_handler_refuted :
    muxRel.handlers.length = 3 ∧
    countL (Ev.acquire 2 true)
        (serveHTTP engOk muxRel (Except.ok { query := "{ hello }" }) 0).1 +
      countL (Ev.acquire 2 false)
        (serveHTTP engOk muxRel (Except.ok { query := "{ hello }" }) 0).1 = 0 ∧
    countL (Ev.release 0)
        (serveHTTP engOk muxRel (Except.ok { query := "{ hello }" }) 0).1 = 1 :=
  ⟨by decide, by decide, by decide⟩

/-- C5: the merged query map and the merged mutation map used by the
request-time assembly apply overwrite semantics in registration order, so
when a later handler exposes a field name also exposed by an earlier one
(and no handler after it redefines the name), the merged map holds the later
handler's field; under successful acquisition the handler loop produces
exactly these merged maps; and the error component of `AddHandler` depends
only on the handler being added, never on the handlers already registered,
so a cross-handler name collision alone causes no registration error. -/
theorem gw_merge_last_write_wins :
    (∀ (hs pre post : List GraphqlHandler) (hA hB : GraphqlHandler)
       (k : String) (vA vB : GqlField),
       hs = pre ++ hB :: post → hA ∈ pre → (k, vA) ∈ hA.getQueries true →
       (mapKeys (hB.getQueries true)).Nodup → (k, vB) ∈ hB.getQueries true →
       (∀ h ∈ post, mapGet (h.getQueries true) k = none) →
       mapGet (requestQueries hs) k = some vB) ∧
    (∀ (hs pre post : List GraphqlHandler) (hA hB : GraphqlHandler)
       (k : String) (vA vB : GqlField),
       hs = pre ++ hB :: post → hA ∈ pre → (k, vA) ∈ hA.getMutations true →
       (mapKeys (hB.getMutations true)).Nodup → (k, vB) ∈ hB.getMutations true →
       (∀ h ∈ post, mapGet (h.getMutations true) k = none) →
       mapGet (requestMutations hs) k = some vB) ∧
    (∀ (ctx : Nat) (hs : List GraphqlHandler),
       (∀ h ∈ hs, h.createConnection ctx = none) →
       (handlerLoop ctx hs 0 [] []).2.2 =
         Except.ok (requestQueries hs, requestMutations hs)) ∧
    (∀ (eng : Engine) (s1 s2 : ServeMux) (h : GraphqlHandler),
       (addHandler eng s1 h).2 = (addHandler eng s2 h).2) := by
  refine ⟨?_, ?_, ?_, ?_⟩
  · intro hs pre post hA hB k vA vB hhs hmemA hmemAq hnodup hmemB hpost
    subst hhs
    unfold requestQueries
    rw [List.foldl_append, List.foldl_cons]
    rw [gw_mapGet_foldl_none (fun h => h.getQueries true) k post hpost]
    exact gw_mapGet_insertAll_mem (hB.getQueries true) k vB hnodup hmemB _
  · intro hs pre post hA hB k vA vB hhs hmemA hmemAq hnodup hmemB hpost
    subst hhs
    unfold requestMutations
    rw [List.foldl_append, List.foldl_cons]
    rw [gw_mapGet_foldl_none (fun h => h.getMutations true) k post hpost]
    exact gw_mapGet_insertAll_mem (hB.getMutations true) k vB hnodup hmemB _
  · intro ctx hs hall
    rw [gw_handlerLoop_ok ctx hs 0 [] [] hall]
    rfl
  · intro eng s1 s2 h
    cases hv : validateHandler eng h with
    | some e => simp [addHandler, hv]
    | none => simp [addHandler, hv]

/-- Witness for C5: with `hCreateA` then `hCreateB` both exposing mutation
field `create`, the merged mutation map holds `hCreateB`'s field (payload
20), by `gw_merge_last_write_wins`. -/
theorem gw_merge_last_write_wins_witness :
    mapGet (requestMutations [hCreateA, hCreateB]) "create" = some 20 :=
  gw_merge_last_write_wins.2.1 [hCreateA, hCreateB] [hCreateA] [] hCreateA
    hCreateB "create" 10 20 rfl (by simp) (by simp [hCreateA])
    (by simp [hCreateB, mapKeys]) (by simp [hCreateB])
    (by intro h hh; cases hh)

/-- C7: a failing middleware produces an envelope taken verbatim from the
typed error shape (explicit code and message) and otherwise the error text
under the generic code — `MIDDLEWARE_ERROR` for the global chain and
`DIRECTIVE_MIDDLEWARE_ERROR` for directive middlewares; a directive failure
responds with that single envelope and aborts before execution. -/
theorem gw_error_envelope_shapes :
    (∀ fb code msg, mwErrorEnvelope fb (GoError.middlewareError code msg) =
      { message := msg, code := code }) ∧
    (∀ fb t, mwErrorEnvelope fb (GoError.plain t) =
      { message := t, code := fb }) ∧
    (∀ (eng : Engine) (s : ServeMux) (parsed : Except String Request)
       (ctx0 : Nat) (mwEvs : List Ev) (e : GoError),
       runMiddlewaresTraced s.middlewares 0 ctx0 = (mwEvs, Except.error e) →
       serveHTTP eng s parsed ctx0 =
         (mwEvs,
          respondResult
            { errors := [mwErrorEnvelope "MIDDLEWARE_ERROR" e] })) ∧
    (∀ (eng : Engine) (s : ServeMux) (req : Request) (ctx0 ctx : Nat)
       (mwEvs hEvs : List Ev) (cls : List Nat) (qs ms : Fields) (sch : Nat)
       (dEvs : List Ev) (e : GoError),
       runMiddlewaresTraced s.middlewares 0 ctx0 = (mwEvs, Except.ok ctx) →
       handlerLoop ctx s.handlers 0 [] [] = (hEvs, cls, Except.ok (qs, ms)) →
       eng.newSchema (buildSchemaConfig qs ms) = Except.ok sch →
       runDirectives ctx s.graphQLMiddlewares req.query
         (mapKeys qs ++ mapKeys ms) = (dEvs, some e) →
       serveHTTP eng s (Except.ok req) ctx0 =
         (mwEvs ++ hEvs ++ (Ev.buildSchema :: dEvs) ++
            (cls.reverse.map Ev.release),
          respondResult
            { errors := [mwErrorEnvelope "DIRECTIVE_MIDDLEWARE_ERROR" e] }) ∧
       Ev.execute ∉ (serveHTTP eng s (Except.ok req) ctx0).1) := by
  refine ⟨fun fb code msg => rfl, fun fb t => rfl, ?_, ?_⟩
  · intro eng s parsed ctx0 mwEvs e hmw
    exact gw_serveHTTP_mwError eng s parsed ctx0 mwEvs e hmw
  · intro eng s req ctx0 ctx mwEvs hEvs cls qs ms sch dEvs e hmw hhl hsch hdir
    have hac := gw_afterConn_dirError eng s.graphQLMiddlewares ctx req qs ms
      sch dEvs e hsch hdir
    have hserve := gw_serveHTTP_conn_ok eng s (Except.ok req) ctx0 ctx mwEvs
      hEvs cls qs ms hmw hhl
    rw [hac] at hserve
    refine ⟨hserve, ?_⟩
    rw [hserve]
    intro hmem
    rcases List.mem_append.mp hmem with hm | hm4
    · rcases List.mem_append.mp hm with hm12 | hm3
      · rcases List.mem_append.mp hm12 with hm1 | hm2
        · rcases gw_runMWT_pure s.middlewares 0 ctx0 _
            (by rw [hmw]; exact hm1) with ⟨j, cj, hj, _, _⟩
          exact Ev.noConfusion hj
        · rcases gw_handlerLoop_pure ctx s.handlers 0 [] [] _
            (by rw [hhl]; exact hm2) with ⟨j, b, hj⟩
          exact Ev.noConfusion hj
      · rcases List.mem_cons.mp hm3 with h | h
        · exact Ev.noConfusion h
        · rcases gw_runDirectives_pure ctx s.graphQLMiddlewares req.query
            (mapKeys qs ++ mapKeys ms) _ (by rw [hdir]; exact h)
            with ⟨m, dn, hmd⟩
          exact Ev.noConfusion hmd
    · rcases List.mem_map.mp hm4 with ⟨j, _, hj⟩
      exact Ev.noConfusion hj

/-- Witness for C7: the untyped directive failure `dboom` on field `hello`
yields the single envelope with code `DIRECTIVE_MIDDLEWARE_ERROR` and the
error text as message, with no execution event, by
`gw_error_envelope_shapes`. -/
theorem gw_error_envelope_shapes_witness :
    serveHTTP engOk muxDirFail (Except.ok { query := "{ hello }" }) 0 =
      ([Ev.acquire 0 true, Ev.buildSchema, Ev.directive "hello" "auth",
        Ev.release 0],
       respondResult
         { errors := [{ message := "dboom",
                        code := "DIRECTIVE_MIDDLEWARE_ERROR" }] }) :=
  (gw_error_envelope_shapes.2.2.2 engOk muxDirFail { query := "{ hello }" }
    0 0 [] [Ev.acquire 0 true] [0] [("hello", 1)] [] 0
    [Ev.directive "hello" "auth"] (GoError.plain "dboom")
    rfl rfl rfl (by decide)).1

/-- C6: when the whole pipeline up to directive dispatch succeeds and every
registered directive middleware succeeds, the trace runs the dispatch
between schema construction and execution, and for every field name of the
merged query/mutation maps with a registered directive middleware, that
middleware runs if and only if the field name occurs as a literal substring
of the raw query text — a query reaching a field only through an alias that
does not literally contain the name triggers no directive. -/
theorem gw_directive_substring_dispatch (eng : Engine) (s : ServeMux)
    (req : Request) (ctx0 ctx : Nat) (mwEvs hEvs : List Ev) (cls : List Nat)
    (qs ms : Fields) (sch : Nat)
    (hmw : runMiddlewaresTraced s.middlewares 0 ctx0 = (mwEvs, Except.ok ctx))
    (hhl : handlerLoop ctx s.handlers 0 [] [] = (hEvs, cls, Except.ok (qs, ms)))
    (hsch : eng.newSchema (buildSchemaConfig qs ms) = Except.ok sch)
    (hsucc : ∀ p ∈ s.graphQLMiddlewares, ∀ d ∈ p.2, ∀ mth,
      d.2 ctx mth = none) :
    serveHTTP eng s (Except.ok req) ctx0 =
      (mwEvs ++ hEvs ++
         (Ev.buildSchema ::
           dispatchEvs s.graphQLMiddlewares req.query
             (mapKeys qs ++ mapKeys ms) ++ [Ev.execute]) ++
         (cls.reverse.map Ev.release),
       respondResult (eng.exec sch req.query)) ∧
    (∀ mth dn fn dirs, mth ∈ mapKeys qs ++ mapKeys ms →
      lookupMW s.graphQLMiddlewares mth = some dirs → (dn, fn) ∈ dirs →
      (Ev.directive mth dn ∈ (serveHTTP eng s (Except.ok req) ctx0).1 ↔
        strContains req.query mth = true)) := by
  have hsucc2 : ∀ mth dirs, lookupMW s.graphQLMiddlewares mth = some dirs →
      ∀ d ∈ dirs, d.2 ctx mth = none := by
    intro mth dirs hl d hd
    rcases gw_lookupMW_mem s.graphQLMiddlewares mth dirs hl with ⟨p, hp, hp2⟩
    rw [← hp2] at hd
    exact hsucc p hp d hd mth
  have hdir := gw_runDirectives_ok ctx s.graphQLMiddlewares req.query hsucc2
    (mapKeys qs ++ mapKeys ms)
  have hac := gw_afterConn_execute eng s.graphQLMiddlewares ctx req qs ms sch
    (dispatchEvs s.graphQLMiddlewares req.query (mapKeys qs ++ mapKeys ms))
    hsch hdir
  have hserve := gw_serveHTTP_conn_ok eng s (Except.ok req) ctx0 ctx mwEvs
    hEvs cls qs ms hmw hhl
  rw [hac] at hserve
  refine ⟨hserve, ?_⟩
  intro mth dn fn dirs hmthmem hlook hdmem
  constructor
  · intro hmem
    rw [hserve] at hmem
    rcases List.mem_append.mp hmem with hm | hm5
    · rcases List.mem_append.mp hm with hm12 | hm3
      · rcases List.mem_append.mp hm12 with hm1 | hm2
        · rcases gw_runMWT_pure s.middlewares 0 ctx0 _
            (by rw [hmw]; exact hm1) with ⟨j, cj, hj, _, _⟩
          exact Ev.noConfusion hj
        · rcases gw_handlerLoop_pure ctx s.handlers 0 [] [] _
            (by rw [hhl]; exact hm2) with ⟨j, b, hj⟩
          exact Ev.noConfusion hj
      · rcases List.mem_cons.mp hm3 with h | h
        · exact Ev.noConfusion h
        · rcases List.mem_append.mp h with hd | he
          · exact ((gw_mem_dispatchEvs s.graphQLMiddlewares req.query mth dn
              (mapKeys qs ++ mapKeys ms)).mp hd).2.1
          · rcases List.mem_singleton.mp he with h2
            exact Ev.noConfusion h2
    · rcases List.mem_map.mp hm5 with ⟨j, _, hj⟩
      exact Ev.noConfusion hj
  · intro hc
    rw [hserve]
    have hdisp : Ev.directive mth dn ∈ dispatchEvs s.graphQLMiddlewares
        req.query (mapKeys qs ++ mapKeys ms) :=
      (gw_mem_dispatchEvs s.graphQLMiddlewares req.query mth dn
        (mapKeys qs ++ mapKeys ms)).mpr ⟨hmthmem, hc, dirs, fn, hlook, hdmem⟩
    exact List.mem_append.mpr (Or.inl (List.mem_append.mpr (Or.inr
      (List.mem_cons.mpr (Or.inr (List.mem_append.mpr (Or.inl hdisp)))))))

/-- Witness for C6: with a directive middleware registered for `hello` and
the query text `{ hello }` containing the name literally, the directive
middleware runs, by `gw_directive_substring_dispatch`. -/
theorem gw_directive_substring_dispatch_witness :
    Ev.directive "hello" "auth" ∈
      (serveHTTP engOk muxDir (Except.ok { query := "{ hello }" }) 0).1 :=
  ((gw_directive_substring_dispatch engOk muxDir { query := "{ hello }" }
      0 0 [] [Ev.acquire 0 true] [0] [("hello", 1)] [] 0 rfl rfl rfl
      (by
        intro p hp d hd mth
        simp [muxDir] at hp
        subst hp
        simp at hd
        subst hd
        rfl)).2
    "hello" "auth" dirPass [("auth", dirPass)] (by decide) rfl
    (List.mem_singleton.mpr rfl)).mpr (by decide)

/-- C10: when a field name is present in both the merged query map and the
merged mutation map, the dispatch loop collects it twice (once per map), so
with the name occurring in the query text, a directive middleware registered
once for that name runs twice in a single request. -/
theorem gw_duplicate_method_directive_twice (eng : Engine) (s : ServeMux)
    (req : Request) (ctx0 ctx : Nat) (mwEvs hEvs : List Ev) (cls : List Nat)
    (qs ms : Fields) (sch : Nat) (k dn : String)
    (dirs : List (String × GraphQLMiddlewareFunc))
    (hmw : runMiddlewaresTraced s.middlewares 0 ctx0 = (mwEvs, Except.ok ctx))
    (hhl : handlerLoop ctx s.handlers 0 [] [] = (hEvs, cls, Except.ok (qs, ms)))
    (hsch : eng.newSchema (buildSchemaConfig qs ms) = Except.ok sch)
    (hsucc : ∀ p ∈ s.graphQLMiddlewares, ∀ d ∈ p.2, ∀ mth,
      d.2 ctx mth = none)
    (hkq : k ∈ mapKeys qs) (hkm : k ∈ mapKeys ms)
    (hc : strContains req.query k = true)
    (hlook : lookupMW s.graphQLMiddlewares k = some dirs)
    (hdn : countL dn (dirs.map (fun d => d.1)) = 1) :
    countL (Ev.directive k dn) (serveHTTP eng s (Except.ok req) ctx0).1 = 2 := by
  have hsucc2 : ∀ mth dirs2, lookupMW s.graphQLMiddlewares mth = some dirs2 →
      ∀ d ∈ dirs2, d.2 ctx mth = none := by
    intro mth dirs2 hl d hd
    rcases gw_lookupMW_mem s.graphQLMiddlewares mth dirs2 hl with ⟨p, hp, hp2⟩
    rw [← hp2] at hd
    exact hsucc p hp d hd mth
  have hdir := gw_runDirectives_ok ctx s.graphQLMiddlewares req.query hsucc2
    (mapKeys qs ++ mapKeys ms)
  have hac := gw_afterConn_execute eng s.graphQLMiddlewares ctx req qs ms sch
    (dispatchEvs s.graphQLMiddlewares req.query (mapKeys qs ++ mapKeys ms))
    hsch hdir
  have hserve := gw_serveHTTP_conn_ok eng s (Except.ok req) ctx0 ctx mwEvs
    hEvs cls qs ms hmw hhl
  rw [hac] at hserve
  rw [hserve]
  have hnodup := gw_handlerLoop_nodup ctx s.handlers 0 [] [] hEvs cls qs ms
    hhl List.nodup_nil List.nodup_nil
  have hkq1 : countL k (mapKeys qs) = 1 :=
    gw_countL_one_of_nodup_mem k (mapKeys qs) hnodup.1 hkq
  have hkm1 : countL k (mapKeys ms) = 1 :=
    gw_countL_one_of_nodup_mem k (mapKeys ms) hnodup.2 hkm
  have hhit : dirHitCount s.graphQLMiddlewares req.query k dn = 1 := by
    unfold dirHitCount
    rw [if_pos hc, hlook]
    exact hdn
  have hdispcount : countL (Ev.directive k dn)
      (dispatchEvs s.graphQLMiddlewares req.query
        (mapKeys qs ++ mapKeys ms)) = 2 := by
    rw [gw_countL_dispatchEvs s.graphQLMiddlewares req.query k dn
      (mapKeys qs ++ mapKeys ms), gw_countL_append, hkq1, hkm1, hhit]
  have z1 : countL (Ev.directive k dn) mwEvs = 0 := by
    apply gw_countL_eq_zero
    intro x hx
    rcases gw_runMWT_pure s.middlewares 0 ctx0 x (by rw [hmw]; exact hx)
      with ⟨j, cj, hj, _, _⟩
    subst hj
    exact fun hcon => Ev.noConfusion hcon
  have z2 : countL (Ev.directive k dn) hEvs = 0 := by
    apply gw_countL_eq_zero
    intro x hx
    rcases gw_handlerLoop_pure ctx s.handlers 0 [] [] x
      (by rw [hhl]; exact hx) with ⟨j, b, hj⟩
    subst hj
    exact fun hcon => Ev.noConfusion hcon
  have z3 : countL (Ev.directive k dn) [Ev.execute] = 0 := by
    apply gw_countL_eq_zero
    intro x hx
    rcases List.mem_singleton.mp hx with h
    subst h
    exact fun hcon => Ev.noConfusion hcon
  have z4 : countL (Ev.directive k dn) (cls.reverse.map Ev.release) = 0 := by
    apply gw_countL_eq_zero
    intro x hx
    rcases List.mem_map.mp hx with ⟨j, _, hj⟩
    subst hj
    exact fun hcon => Ev.noConfusion hcon
  have z5 : countL (Ev.directive k dn) [Ev.buildSchema] = 0 := by
    apply gw_countL_eq_zero
    intro x hx
    rcases List.mem_singleton.mp hx with h
    subst h
    exact fun hcon => Ev.noConfusion hcon
  have hcons : (Ev.buildSchema ::
      dispatchEvs s.graphQLMiddlewares req.query (mapKeys qs ++ mapKeys ms)
      ++ [Ev.execute]) = [Ev.buildSchema] ++
      (dispatchEvs s.graphQLMiddlewares req.query (mapKeys qs ++ mapKeys ms)
       ++ [Ev.execute]) := rfl
  rw [hcons]
  simp only [gw_countL_append, z1, z2, z3, z4, z5, hdispcount]

/-- Witness for C10: `thing` is both a query and a mutation field of
`muxThing` and `{ thing }` contains it literally, so the single registered
directive middleware for `thing` runs twice, by
`gw_duplicate_method_directive_twice`. -/
theorem gw_duplicate_method_directive_twice_witness :
    countL (Ev.directive "thing" "auth")
      (serveHTTP engOk muxThing (Except.ok { query := "{ thing }" }) 0).1 = 2 :=
  gw_duplicate_method_directive_twice engOk muxThing { query := "{ thing }" }
    0 0 [] [Ev.acquire 0 true] [0] [("thing", 1)] [("thing", 2)] 0
    "thing" "auth" [("auth", dirPass)] rfl rfl rfl
    (by
      intro p hp d hd mth
      simp [muxThing] at hp
      subst hp
      simp at hd
      subst hd
      rfl)
    (by decide) (by decide) (by decide) rfl (by decide)
